import Mathlib

/-!
Verification of the libpocket client library: a shallow embedding of its
data model, response decoding, pagination and batch-modify protocol,
together with theorems about the properties the documentation states.

The embedding works over parsed JSON values (`Json` below): the HTTP
transport and the textual JSON parser are outside the model, so every
client operation is a pure function of the response bodies the server
would deliver.  Decoding mirrors the serde semantics used by the source:
a struct field must occur exactly once (duplicates and missing required
fields are errors, unknown fields are ignored), an `Option` field may be
absent or `null`, and a `BTreeMap` decodes by inserting the object's
fields in order (a later duplicate key wins).
-/

/-- JSON values, as produced by `serde_json` for the protocol at hand.
Numbers are modelled as integers: the Pocket protocol never carries
fractional numbers, and every numeric field of the model is an unsigned
integer type. -/
inductive Json where
  | null
  | bool (b : Bool)
  | num (n : Int)
  | str (s : String)
  | arr (elems : List Json)
  | obj (fields : List (String × Json))

/-- Decidable equality for decode results (core `Except` does not
derive one). -/
instance [DecidableEq ε] [DecidableEq α] : DecidableEq (Except ε α)
  | .ok a, .ok b =>
    if h : a = b then .isTrue (by rw [h]) else .isFalse (by simp [h])
  | .ok _, .error _ => .isFalse (by simp)
  | .error _, .ok _ => .isFalse (by simp)
  | .error a, .error b =>
    if h : a = b then .isTrue (by rw [h]) else .isFalse (by simp [h])

/-- All values bound to `name` in an object's field list, in order. -/
def fieldOccurrences (fields : List (String × Json)) (name : String) : List Json :=
  fields.filterMap (fun p => if p.1 = name then some p.2 else none)

/-- Required struct field lookup with serde semantics: the field must
occur exactly once; a duplicate field or a missing field is a decode
error, any other (unknown) field is ignored. -/
def getField (fields : List (String × Json)) (name : String) : Except String Json :=
  match fieldOccurrences fields name with
  | [v] => .ok v
  | [] => .error ("missing field " ++ name)
  | _ => .error ("duplicate field " ++ name)

/-- Optional struct field lookup: the field may be absent; a duplicate
field is still a decode error. -/
def getOptField (fields : List (String × Json)) (name : String) :
    Except String (Option Json) :=
  match fieldOccurrences fields name with
  | [] => .ok none
  | [v] => .ok (some v)
  | _ => .error ("duplicate field " ++ name)

/-- Decode a JSON string. -/
def decodeString : Json → Except String String
  | .str s => .ok s
  | _ => .error "invalid type: expected a string"

/-- The wire boolean decoder of `lib.rs`/`model.rs`
(`deserialize_string_to_bool`): the booleans of an `Item` are encoded as
the literal strings "0" and "1"; anything else is a decode error. -/
def deserialize_string_to_bool (j : Json) : Except String Bool := do
  match ← decodeString j with
  | "0" => pure false
  | "1" => pure true
  | _ => .error "invalid value: expected 0 or 1"

/-- The wire boolean encoder of `lib.rs` (`serialize_bool_to_string`). -/
def serialize_bool_to_string (b : Bool) : Json :=
  .str (if b then "1" else "0")

/-- Digit value of a decimal digit character, if it is one. -/
def digitVal (c : Char) : Option Nat :=
  if 48 ≤ c.toNat ∧ c.toNat ≤ 57 then some (c.toNat - 48) else none

/-- Decimal digit character for a digit value. -/
def digitChar (d : Nat) : Char := Char.ofNat (48 + d)

/-- Little-endian decimal digits, structurally recursive on a fuel
argument so that the kernel can evaluate it (`fuel ≥ n` suffices). -/
def natDigitsRevAux : Nat → Nat → List Nat
  | _, 0 => []
  | 0, _ + 1 => []
  | fuel + 1, n + 1 => ((n + 1) % 10) :: natDigitsRevAux fuel ((n + 1) / 10)

/-- Little-endian list of decimal digits of a number (empty for 0). -/
def natDigitsRev (n : Nat) : List Nat := natDigitsRevAux n n

/-- Decimal rendering of an unsigned integer, as Rust's `Display`
implementation produces it (used by `serde_with`'s `DisplayFromStr`). -/
def natToDecimal (n : Nat) : String :=
  if n = 0 then "0" else ⟨(natDigitsRev n).reverse.map digitChar⟩

/-- Accumulating decimal parser over characters; fails on a non-digit. -/
def decimalToNatAux : List Char → Nat → Option Nat
  | [], acc => some acc
  | c :: cs, acc =>
    match digitVal c with
    | some d => decimalToNatAux cs (10 * acc + d)
    | none => none

/-- Strip one leading plus sign, as Rust's unsigned `FromStr` accepts. -/
def stripLeadingPlus (cs : List Char) : List Char :=
  match cs with
  | [] => []
  | c :: rest => if c = '+' then rest else c :: rest

/-- Rust `FromStr` for an unsigned integer type whose values are the
naturals below `bound`: an optional leading `+`, then one or more
decimal digits; a non-digit or a value at or above `bound` (overflow)
fails. -/
def rustParseUnsigned (bound : Nat) (s : String) : Option Nat :=
  match stripLeadingPlus s.data with
  | [] => none
  | cs =>
    match decimalToNatAux cs 0 with
    | some n => if n < bound then some n else none
    | none => none

/-- Rust `u64::from_str`. -/
def rustParseU64 (s : String) : Option Nat := rustParseUnsigned (2 ^ 64) s

/-- Rust `u32::from_str`. -/
def rustParseU32 (s : String) : Option Nat := rustParseUnsigned (2 ^ 32) s

/-- Decode a `u64` carried as a decimal string (`DisplayFromStr`). -/
def decodeU64Str (j : Json) : Except String Nat := do
  match rustParseU64 (← decodeString j) with
  | some n => pure n
  | none => .error "invalid digit found in string"

/-- Decode a `u32` carried as a decimal string (`DisplayFromStr`). -/
def decodeU32Str (j : Json) : Except String Nat := do
  match rustParseU32 (← decodeString j) with
  | some n => pure n
  | none => .error "invalid digit found in string"

/-- Decode a `u64` carried as a native JSON integer. -/
def decodeU64 : Json → Except String Nat
  | .num n => if 0 ≤ n ∧ n < 2 ^ 64 then .ok n.toNat else .error "integer out of range for u64"
  | _ => .error "invalid type: expected an integer"

/-- Decode a `u32` carried as a native JSON integer. -/
def decodeU32 : Json → Except String Nat
  | .num n => if 0 ≤ n ∧ n < 2 ^ 32 then .ok n.toNat else .error "integer out of range for u32"
  | _ => .error "invalid type: expected an integer"

/-- Encode a `u64` as a native JSON integer. -/
def encodeU64 (n : Nat) : Json := .num n

/-- Encode a `u32` as a native JSON integer. -/
def encodeU32 (n : Nat) : Json := .num n

/-- Decode a required struct field with the given element decoder. -/
def decodeField (fields : List (String × Json)) (name : String)
    (dec : Json → Except String α) : Except String α := do
  dec (← getField fields name)

/-- Decode an `Option` struct field: absent or `null` is `none`, any
other value runs the element decoder. -/
def decodeOptField (fields : List (String × Json)) (name : String)
    (dec : Json → Except String α) : Except String (Option α) := do
  match ← getOptField fields name with
  | none => pure none
  | some .null => pure none
  | some v => (dec v).map some

/-- Whether the item is favorited (`FavoriteStatus` in the source),
wire-encoded as the string of its ordinal. -/
inductive FavoriteStatus where
  | NotFavorited
  | Favorited
deriving DecidableEq

def decodeFavoriteStatus (j : Json) : Except String FavoriteStatus := do
  match ← decodeString j with
  | "0" => pure .NotFavorited
  | "1" => pure .Favorited
  | _ => .error "unknown variant of FavoriteStatus"

def encodeFavoriteStatus : FavoriteStatus → Json
  | .NotFavorited => .str "0"
  | .Favorited => .str "1"

/-- Whether the item is unread, read, or marked for deletion (`Status`
in the source), wire-encoded as the string of its ordinal. -/
inductive Status where
  | Unread
  | Read
  | ShouldBeDeleted
deriving DecidableEq

def decodeStatus (j : Json) : Except String Status := do
  match ← decodeString j with
  | "0" => pure .Unread
  | "1" => pure .Read
  | "2" => pure .ShouldBeDeleted
  | _ => .error "unknown variant of Status"

def encodeStatus : Status → Json
  | .Unread => .str "0"
  | .Read => .str "1"
  | .ShouldBeDeleted => .str "2"

/-- Whether the item has or is an image (`HasImage` in the source). -/
inductive HasImage where
  | No
  | Yes
  | IsImage
deriving DecidableEq

def decodeHasImage (j : Json) : Except String HasImage := do
  match ← decodeString j with
  | "0" => pure .No
  | "1" => pure .Yes
  | "2" => pure .IsImage
  | _ => .error "unknown variant of HasImage"

def encodeHasImage : HasImage → Json
  | .No => .str "0"
  | .Yes => .str "1"
  | .IsImage => .str "2"

/-- Whether the item has or is a video (`HasVideo` in the source). -/
inductive HasVideo where
  | No
  | Yes
  | IsVideo
deriving DecidableEq

def decodeHasVideo (j : Json) : Except String HasVideo := do
  match ← decodeString j with
  | "0" => pure .No
  | "1" => pure .Yes
  | "2" => pure .IsVideo
  | _ => .error "unknown variant of HasVideo"

def encodeHasVideo : HasVideo → Json
  | .No => .str "0"
  | .Yes => .str "1"
  | .IsVideo => .str "2"

/-- Lexicographic order on character lists by code point, the order in
which Rust compares `String`s (byte-wise comparison of UTF-8 agrees
with code-point order). -/
def charListLt : List Char → List Char → Bool
  | [], [] => false
  | [], _ :: _ => true
  | _ :: _, [] => false
  | a :: as, b :: bs =>
    if a.toNat < b.toNat then true
    else if b.toNat < a.toNat then false
    else charListLt as bs

/-- The `Ord`-order of Rust `String`s, used as the key order of every
`BTreeMap` in the model. -/
def strLt (s t : String) : Bool := charListLt s.data t.data

/-- Association list representation of a Rust `BTreeMap` with `String`
keys: entries sorted by `strLt`, keys unique. -/
abbrev StrMap (α : Type) := List (String × α)

/-- `BTreeMap::insert`: ordered insertion, replacing an equal key. -/
def mapInsert (k : String) (v : α) : StrMap α → StrMap α
  | [] => [(k, v)]
  | (k', v') :: rest =>
    if strLt k k' then (k, v) :: (k', v') :: rest
    else if k = k' then (k, v) :: rest
    else (k', v') :: mapInsert k v rest

/-- Decode the fields of a JSON object into a `BTreeMap`, inserting in
arrival order so that a later duplicate key wins, as serde's map
deserialization does. -/
def decodeStrMapFields (dec : Json → Except String α) :
    List (String × Json) → StrMap α → Except String (StrMap α)
  | [], acc => .ok acc
  | (k, v) :: rest, acc => do
    decodeStrMapFields dec rest (mapInsert k (← dec v) acc)

/-- Decode a JSON object as a `BTreeMap<String, α>`. -/
def decodeStrMap (dec : Json → Except String α) : Json → Except String (StrMap α)
  | .obj fields => decodeStrMapFields dec fields []
  | _ => .error "invalid type: expected a map"

/-- Serialize a `BTreeMap` as a JSON object; iteration order is the
stored (ascending-key) order. -/
def encodeStrMap (enc : α → Json) (m : StrMap α) : Json :=
  .obj (m.map (fun p => (p.1, enc p.2)))

/-- Encode an `Option` the way serde does: `None` becomes `null`. -/
def encodeOpt (enc : α → Json) : Option α → Json
  | none => .null
  | some v => enc v

/-- Opaque identifier of a saved item (`ItemId` in the source). -/
abbrev ItemId := String

/-- Metadata of an item's domain (`DomainMetadata` in the source). -/
structure DomainMetadata where
  name : Option String
  logo : String
  greyscale_logo : String
deriving DecidableEq

def decodeDomainMetadata (j : Json) : Except String DomainMetadata :=
  match j with
  | .obj fs => do
    let name ← decodeOptField fs "name" decodeString
    let logo ← decodeField fs "logo" decodeString
    let greyscale_logo ← decodeField fs "greyscale_logo" decodeString
    pure { name := name, logo := logo, greyscale_logo := greyscale_logo }
  | _ => .error "invalid type: expected struct DomainMetadata"

def encodeDomainMetadata (d : DomainMetadata) : Json :=
  .obj [("name", encodeOpt Json.str d.name),
        ("logo", .str d.logo),
        ("greyscale_logo", .str d.greyscale_logo)]

/-- The main image associated with an `Item` (`MainImage` in the
source); width and height travel as decimal strings. -/
structure MainImage where
  item_id : String
  src : String
  width : Nat
  height : Nat
deriving DecidableEq

def decodeMainImage (j : Json) : Except String MainImage :=
  match j with
  | .obj fs => do
    let item_id ← decodeField fs "item_id" decodeString
    let src ← decodeField fs "src" decodeString
    let width ← decodeField fs "width" decodeU32Str
    let height ← decodeField fs "height" decodeU32Str
    pure { item_id := item_id, src := src, width := width, height := height }
  | _ => .error "invalid type: expected struct MainImage"

def encodeMainImage (i : MainImage) : Json :=
  .obj [("item_id", .str i.item_id),
        ("src", .str i.src),
        ("width", .str (natToDecimal i.width)),
        ("height", .str (natToDecimal i.height))]

/-- An image associated with an `Item` (`Image` in the source). -/
structure Image where
  item_id : String
  image_id : String
  src : String
  width : Nat
  height : Nat
  credit : String
  caption : String
deriving DecidableEq

def decodeImage (j : Json) : Except String Image :=
  match j with
  | .obj fs => do
    let item_id ← decodeField fs "item_id" decodeString
    let image_id ← decodeField fs "image_id" decodeString
    let src ← decodeField fs "src" decodeString
    let width ← decodeField fs "width" decodeU32Str
    let height ← decodeField fs "height" decodeU32Str
    let credit ← decodeField fs "credit" decodeString
    let caption ← decodeField fs "caption" decodeString
    pure { item_id := item_id, image_id := image_id, src := src, width := width,
           height := height, credit := credit, caption := caption }
  | _ => .error "invalid type: expected struct Image"

def encodeImage (i : Image) : Json :=
  .obj [("item_id", .str i.item_id),
        ("image_id", .str i.image_id),
        ("src", .str i.src),
        ("width", .str (natToDecimal i.width)),
        ("height", .str (natToDecimal i.height)),
        ("credit", .str i.credit),
        ("caption", .str i.caption)]

/-- A video associated with an `Item` (`Video` in the source); the wire
name of `video_type` is `type`. -/
structure Video where
  item_id : String
  video_id : String
  src : String
  width : Nat
  height : Nat
  video_type : Nat
  vid : String
  length : Option Nat
deriving DecidableEq

def decodeVideo (j : Json) : Except String Video :=
  match j with
  | .obj fs => do
    let item_id ← decodeField fs "item_id" decodeString
    let video_id ← decodeField fs "video_id" decodeString
    let src ← decodeField fs "src" decodeString
    let width ← decodeField fs "width" decodeU32Str
    let height ← decodeField fs "height" decodeU32Str
    let video_type ← decodeField fs "type" decodeU32Str
    let vid ← decodeField fs "vid" decodeString
    let length ← decodeOptField fs "length" decodeU32Str
    pure { item_id := item_id, video_id := video_id, src := src, width := width,
           height := height, video_type := video_type, vid := vid, length := length }
  | _ => .error "invalid type: expected struct Video"

def encodeVideo (v : Video) : Json :=
  .obj [("item_id", .str v.item_id),
        ("video_id", .str v.video_id),
        ("src", .str v.src),
        ("width", .str (natToDecimal v.width)),
        ("height", .str (natToDecimal v.height)),
        ("type", .str (natToDecimal v.video_type)),
        ("vid", .str v.vid),
        ("length", encodeOpt (fun n => .str (natToDecimal n)) v.length)]

/-- An author associated with an `Item` (`Author` in the source). -/
structure Author where
  item_id : String
  author_id : String
  name : String
  url : String
deriving DecidableEq

def decodeAuthor (j : Json) : Except String Author :=
  match j with
  | .obj fs => do
    let item_id ← decodeField fs "item_id" decodeString
    let author_id ← decodeField fs "author_id" decodeString
    let name ← decodeField fs "name" decodeString
    let url ← decodeField fs "url" decodeString
    pure { item_id := item_id, author_id := author_id, name := name, url := url }
  | _ => .error "invalid type: expected struct Author"

def encodeAuthor (a : Author) : Json :=
  .obj [("item_id", .str a.item_id),
        ("author_id", .str a.author_id),
        ("name", .str a.name),
        ("url", .str a.url)]

/-- A tag applied to an `Item` (`Tag` in the source). -/
structure Tag where
  item_id : String
  tag : String
deriving DecidableEq

def decodeTag (j : Json) : Except String Tag :=
  match j with
  | .obj fs => do
    let item_id ← decodeField fs "item_id" decodeString
    let tag ← decodeField fs "tag" decodeString
    pure { item_id := item_id, tag := tag }
  | _ => .error "invalid type: expected struct Tag"

def encodeTag (t : Tag) : Json :=
  .obj [("item_id", .str t.item_id), ("tag", .str t.tag)]

/-- A Pocket item (`Item` in `lib.rs`/`model.rs`).  Booleans travel as
the strings "0"/"1", the counters and timestamps as decimal strings;
`sort_id`, `listen_duration_estimate` and `time_to_read` are native
JSON integers; the nested collections are only present under a
"complete detail" query. -/
structure Item where
  item_id : ItemId
  resolved_id : String
  given_url : String
  resolved_url : String
  given_title : String
  resolved_title : String
  favorite : FavoriteStatus
  status : Status
  excerpt : String
  is_article : Bool
  has_image : HasImage
  has_video : HasVideo
  word_count : Nat
  time_added : Nat
  time_updated : Nat
  time_read : Nat
  time_favorited : Nat
  sort_id : Nat
  is_index : Bool
  lang : String
  top_image_url : Option String
  domain_metadata : Option DomainMetadata
  listen_duration_estimate : Nat
  time_to_read : Option Nat
  amp_url : Option String
  images : Option (StrMap Image)
  videos : Option (StrMap Video)
  authors : Option (StrMap Author)
  tags : Option (StrMap Tag)
  image : Option MainImage
deriving DecidableEq

def decodeItem (j : Json) : Except String Item :=
  match j with
  | .obj fs => do
    let item_id ← decodeField fs "item_id" decodeString
    let resolved_id ← decodeField fs "resolved_id" decodeString
    let given_url ← decodeField fs "given_url" decodeString
    let resolved_url ← decodeField fs "resolved_url" decodeString
    let given_title ← decodeField fs "given_title" decodeString
    let resolved_title ← decodeField fs "resolved_title" decodeString
    let favorite ← decodeField fs "favorite" decodeFavoriteStatus
    let status ← decodeField fs "status" decodeStatus
    let excerpt ← decodeField fs "excerpt" decodeString
    let is_article ← decodeField fs "is_article" deserialize_string_to_bool
    let has_image ← decodeField fs "has_image" decodeHasImage
    let has_video ← decodeField fs "has_video" decodeHasVideo
    let word_count ← decodeField fs "word_count" decodeU64Str
    let time_added ← decodeField fs "time_added" decodeU64Str
    let time_updated ← decodeField fs "time_updated" decodeU64Str
    let time_read ← decodeField fs "time_read" decodeU64Str
    let time_favorited ← decodeField fs "time_favorited" decodeU64Str
    let sort_id ← decodeField fs "sort_id" decodeU32
    let is_index ← decodeField fs "is_index" deserialize_string_to_bool
    let lang ← decodeField fs "lang" decodeString
    let top_image_url ← decodeOptField fs "top_image_url" decodeString
    let domain_metadata ← decodeOptField fs "domain_metadata" decodeDomainMetadata
    let listen_duration_estimate ← decodeField fs "listen_duration_estimate" decodeU64
    let time_to_read ← decodeOptField fs "time_to_read" decodeU64
    let amp_url ← decodeOptField fs "amp_url" decodeString
    let images ← decodeOptField fs "images" (decodeStrMap decodeImage)
    let videos ← decodeOptField fs "videos" (decodeStrMap decodeVideo)
    let authors ← decodeOptField fs "authors" (decodeStrMap decodeAuthor)
    let tags ← decodeOptField fs "tags" (decodeStrMap decodeTag)
    let image ← decodeOptField fs "image" decodeMainImage
    pure { item_id := item_id, resolved_id := resolved_id, given_url := given_url,
           resolved_url := resolved_url, given_title := given_title,
           resolved_title := resolved_title, favorite := favorite, status := status,
           excerpt := excerpt, is_article := is_article, has_image := has_image,
           has_video := has_video, word_count := word_count, time_added := time_added,
           time_updated := time_updated, time_read := time_read,
           time_favorited := time_favorited, sort_id := sort_id, is_index := is_index,
           lang := lang, top_image_url := top_image_url,
           domain_metadata := domain_metadata,
           listen_duration_estimate := listen_duration_estimate,
           time_to_read := time_to_read, amp_url := amp_url, images := images,
           videos := videos, authors := authors, tags := tags, image := image }
  | _ => .error "invalid type: expected struct Item"

/-- The serialized fields of an `Item` (the `Serialize` derive in
`lib.rs`): every field is emitted in declaration order, `None` as
`null`. -/
def encodeItemFields (it : Item) : List (String × Json) :=
  [("item_id", .str it.item_id),
        ("resolved_id", .str it.resolved_id),
        ("given_url", .str it.given_url),
        ("resolved_url", .str it.resolved_url),
        ("given_title", .str it.given_title),
        ("resolved_title", .str it.resolved_title),
        ("favorite", encodeFavoriteStatus it.favorite),
        ("status", encodeStatus it.status),
        ("excerpt", .str it.excerpt),
        ("is_article", serialize_bool_to_string it.is_article),
        ("has_image", encodeHasImage it.has_image),
        ("has_video", encodeHasVideo it.has_video),
        ("word_count", .str (natToDecimal it.word_count)),
        ("time_added", .str (natToDecimal it.time_added)),
        ("time_updated", .str (natToDecimal it.time_updated)),
        ("time_read", .str (natToDecimal it.time_read)),
        ("time_favorited", .str (natToDecimal it.time_favorited)),
        ("sort_id", encodeU32 it.sort_id),
        ("is_index", serialize_bool_to_string it.is_index),
        ("lang", .str it.lang),
        ("top_image_url", encodeOpt Json.str it.top_image_url),
        ("domain_metadata", encodeOpt encodeDomainMetadata it.domain_metadata),
        ("listen_duration_estimate", encodeU64 it.listen_duration_estimate),
        ("time_to_read", encodeOpt encodeU64 it.time_to_read),
        ("amp_url", encodeOpt Json.str it.amp_url),
        ("images", encodeOpt (encodeStrMap encodeImage) it.images),
        ("videos", encodeOpt (encodeStrMap encodeVideo) it.videos),
        ("authors", encodeOpt (encodeStrMap encodeAuthor) it.authors),
        ("tags", encodeOpt (encodeStrMap encodeTag) it.tags),
        ("image", encodeOpt encodeMainImage it.image)]

/-- Serialization of an `Item` as a JSON object. -/
def encodeItem (it : Item) : Json := .obj (encodeItemFields it)

/-- An `Item` that should be deleted (`DeletedItem` in the source):
only its `item_id` is decoded, every other field is ignored. -/
structure DeletedItem where
  item_id : ItemId
deriving DecidableEq

def decodeDeletedItem (j : Json) : Except String DeletedItem :=
  match j with
  | .obj fs => do
    let item_id ← decodeField fs "item_id" decodeString
    pure { item_id := item_id }
  | _ => .error "invalid type: expected struct DeletedItem"

/-- Untagged union over `Item` and `DeletedItem` (`ItemOrDeletedItem`
in the source): serde tries the variants in declaration order. -/
inductive ItemOrDeletedItem where
  | Item (item : Item)
  | DeletedItem (item : DeletedItem)
deriving DecidableEq

def decodeItemOrDeletedItem (j : Json) : Except String ItemOrDeletedItem :=
  match decodeItem j with
  | .ok it => .ok (.Item it)
  | .error _ =>
    match decodeDeletedItem j with
    | .ok d => .ok (.DeletedItem d)
    | .error _ => .error "data did not match any variant of untagged enum ItemOrDeletedItem"

/-- The `item_id` field of whichever variant is stored. -/
def ItemOrDeletedItem.item_id : ItemOrDeletedItem → ItemId
  | .Item it => it.item_id
  | .DeletedItem d => d.item_id

/-- The reading list: a `BTreeMap` from `ItemId` to
`ItemOrDeletedItem`. -/
abbrev ReadingList := StrMap ItemOrDeletedItem

/-- The shape of a non-empty (or validly empty) `/get` response
(`ReadingListResponse` in the source). -/
structure ReadingListResponse where
  list : ReadingList
deriving DecidableEq

def decodeReadingListResponse (j : Json) : Except String ReadingListResponse :=
  match j with
  | .obj fs => do
    let list ← decodeField fs "list" (decodeStrMap decodeItemOrDeletedItem)
    pure { list := list }
  | _ => .error "invalid type: expected struct ReadingListResponse"

/-- Decode every element of a JSON array. -/
def decodeList (dec : Json → Except String α) : List Json → Except String (List α)
  | [] => .ok []
  | j :: rest => do
    pure ((← dec j) :: (← decodeList dec rest))

/-- The shape Pocket uses when a `/get` response contains no items: the
`list` value becomes an array (`EmptyReadingListResponse` in the
source). -/
structure EmptyReadingListResponse where
  list : List Item
deriving DecidableEq

def decodeEmptyReadingListResponse (j : Json) : Except String EmptyReadingListResponse :=
  match j with
  | .obj fs => do
    match ← getField fs "list" with
    | .arr elems => do
      let list ← decodeList decodeItem elems
      pure { list := list }
    | _ => .error "invalid type: expected a sequence"
  | _ => .error "invalid type: expected struct EmptyReadingListResponse"

/-- Classification of a `/get` response body (`ResponseState` in the
source). -/
inductive ResponseState where
  | Parsed (r : ReadingListResponse)
  | NoMore
  | Error (e : String)
deriving DecidableEq

/-- Decoder of `/get` response bodies (`parse_all_response` in
`lib.rs`): try the map shape first; on failure try the empty-array
shape, classifying an empty array as the `NoMore` pagination sentinel
and anything else as an error carrying the first attempt's message. -/
def parse_all_response (response : Json) : ResponseState :=
  match decodeReadingListResponse response with
  | .ok r => .Parsed r
  | .error e =>
    match decodeEmptyReadingListResponse response with
    | .ok r => if r.list.isEmpty then .NoMore else .Error e
    | .error _ => .Error e

/-- Errors surfaced by the client (`ClientError` in the source). -/
inductive ClientError where
  | ParseJSON (e : String)
deriving DecidableEq

/-- `BTreeMap::extend`: insert every entry in order, replacing existing
keys. -/
def ReadingList.extend (acc : ReadingList) (entries : List (ItemId × ItemOrDeletedItem)) :
    ReadingList :=
  entries.foldl (fun m p => mapInsert p.1 p.2 m) acc

/-- One-page fetch (`Client::get` in `lib.rs`), as a function of the
response body the server delivers for the query; the query
serialization, auth merging and HTTP transport are outside the model. -/
def Client.get (response : Json) : Except ClientError ReadingList :=
  let reading_list : ReadingList := []
  match parse_all_response response with
  | .NoMore => .ok reading_list
  | .Parsed parsed_response => .ok (reading_list.extend parsed_response.list)
  | .Error e => .error (.ParseJSON e)

/-- The pagination loop of `Client::list_all` in `lib.rs`, as a
function of the successive response bodies the server delivers for the
increasing offsets.  `none` means the supplied responses ran out before
the loop observed a `NoMore` sentinel or an error (the real loop would
issue a further request). -/
def Client.list_all_loop : List Json → ReadingList → Option (Except ClientError ReadingList)
  | [], _ => none
  | response :: rest, reading_list =>
    match parse_all_response response with
    | .NoMore => some (.ok reading_list)
    | .Parsed parsed_response => Client.list_all_loop rest (reading_list.extend parsed_response.list)
    | .Error e => some (.error (.ParseJSON e))

/-- `Client::list_all` in `lib.rs`: repeated `/get` requests merged
into one accumulator until the `NoMore` sentinel, aborting on the first
error. -/
def Client.list_all (responses : List Json) : Option (Except ClientError ReadingList) :=
  Client.list_all_loop responses []

/-- The effective URL of an item (`Item::url` in `lib.rs`):
`resolved_url` if non-empty, else `given_url`. -/
def Item.url (it : Item) : String :=
  if it.resolved_url ≠ "" then it.resolved_url else it.given_url

/-- A reduced-fidelity item returned by the `/send` endpoint for
successful `add`/`readd` actions (`ModifiedItem` in `model.rs`);
`given_url` and `lang` are optional here, unlike on `Item`. -/
structure ModifiedItem where
  item_id : ItemId
  resolved_id : String
  given_url : Option String
  resolved_url : String
  excerpt : String
  is_article : Bool
  has_image : HasImage
  has_video : HasVideo
  word_count : Nat
  lang : Option String
  domain_metadata : Option DomainMetadata
deriving DecidableEq

def decodeModifiedItem (j : Json) : Except String ModifiedItem :=
  match j with
  | .obj fs => do
    let item_id ← decodeField fs "item_id" decodeString
    let resolved_id ← decodeField fs "resolved_id" decodeString
    let given_url ← decodeOptField fs "given_url" decodeString
    let resolved_url ← decodeField fs "resolved_url" decodeString
    let excerpt ← decodeField fs "excerpt" decodeString
    let is_article ← decodeField fs "is_article" deserialize_string_to_bool
    let has_image ← decodeField fs "has_image" decodeHasImage
    let has_video ← decodeField fs "has_video" decodeHasVideo
    let word_count ← decodeField fs "word_count" decodeU64Str
    let lang ← decodeOptField fs "lang" decodeString
    let domain_metadata ← decodeOptField fs "domain_metadata" decodeDomainMetadata
    pure { item_id := item_id, resolved_id := resolved_id, given_url := given_url,
           resolved_url := resolved_url, excerpt := excerpt, is_article := is_article,
           has_image := has_image, has_video := has_video, word_count := word_count,
           lang := lang, domain_metadata := domain_metadata }
  | _ => .error "invalid type: expected struct ModifiedItem"

/-- Modelled from the spec: the `ActionError` record of the batch
endpoint — `{code: u16, message: string, error_type: string}`, returned
per failed action.  Its defining source (the crate's batch module,
declared in `lib.rs` and exercised by the integration tests) is not
among the available source files. -/
structure ActionError where
  code : Nat
  message : String
  error_type : String
deriving DecidableEq

def decodeActionError (j : Json) : Except String ActionError :=
  match j with
  | .obj fs => do
    let code ← decodeField fs "code"
      (fun v => match v with
        | .num n => if 0 ≤ n ∧ n < 2 ^ 16 then .ok n.toNat else .error "integer out of range for u16"
        | _ => .error "invalid type: expected an integer")
    let message ← decodeField fs "message" decodeString
    let error_type ← decodeField fs "error_type" decodeString
    pure { code := code, message := message, error_type := error_type }
  | _ => .error "invalid type: expected struct ActionError"

/-- Modelled from the spec: the tagged `Action` variants of the batch
endpoint (add/archive/readd/favorite/unfavorite/delete and the three
tag actions), each carrying a caller-supplied Unix timestamp.  Their
defining source (the crate's batch module) is not among the available
source files; the fields follow the spec and the integration tests.
(Namespaced because Mathlib already has a declaration called
`Action`.) -/
inductive Pocket.Action where
  | Add (url : String) (time : Nat)
  | Archive (item_id : ItemId) (time : Nat)
  | Readd (item_id : ItemId) (time : Nat)
  | Favorite (item_id : ItemId) (time : Nat)
  | Unfavorite (item_id : ItemId) (time : Nat)
  | Delete (item_id : ItemId) (time : Nat)
  | TagsAdd (item_id : ItemId) (tags : List String) (time : Nat)
  | TagsReplace (item_id : ItemId) (tags : List String) (time : Nat)
  | TagsRemove (item_id : ItemId) (tags : List String) (time : Nat)
deriving DecidableEq

/-- Modelled from the spec: one outcome per submitted action — `Err`
of the per-action error, or `Ok` of the modified item when the endpoint
returned one (`Ok none` for bare boolean success). -/
abbrev ModifyResponse := List (Except ActionError (Option ModifiedItem))

/-- Modelled from the spec: one entry of the `action_errors` array —
`null` when the action succeeded, an `ActionError` object otherwise. -/
def decodeActionErrorEntry (j : Json) : Except String (Option ActionError) :=
  match j with
  | .null => .ok none
  | _ => (decodeActionError j).map some

/-- Modelled from the spec: one entry of the `action_results` array —
the untagged union `ModifiedItem | bool`, tried in that order; a bare
boolean carries no item payload. -/
def decodeActionResultEntry (j : Json) : Except String (Option ModifiedItem) :=
  match decodeModifiedItem j with
  | .ok it => .ok (some it)
  | .error _ =>
    match j with
    | .bool _ => .ok none
    | _ => .error "data did not match any variant of untagged action result"

/-- Modelled from the spec: the outcome of one action, zipping the i-th
entries of `action_results` and `action_errors` — a present (non-null)
error wins, otherwise the result entry decides between `some` item and
bare boolean success. -/
def decodeOutcome (result err : Json) : Except String (Except ActionError (Option ModifiedItem)) := do
  match ← decodeActionErrorEntry err with
  | some e => pure (.error e)
  | none => (decodeActionResultEntry result).map .ok

/-- Modelled from the spec: element-wise zip of the two parallel arrays
of a `/send` response. -/
def decodeOutcomes : List Json → List Json → Except String ModifyResponse
  | [], [] => .ok []
  | result :: results, err :: errs => do
    pure ((← decodeOutcome result err) :: (← decodeOutcomes results errs))
  | _, _ => .error "action_results and action_errors lengths differ"

/-- Modelled from the spec: decode a `/send` (batch modify) response —
`{action_results: array, action_errors: array}`, both arrays of the
request's action count (a length mismatch is a decode error), zipped
element-wise into one outcome per action. -/
def decodeSendResponse (actionCount : Nat) (j : Json) : Except String ModifyResponse :=
  match j with
  | .obj fs => do
    match ← getField fs "action_results", ← getField fs "action_errors" with
    | .arr results, .arr errs =>
      if results.length = actionCount ∧ errs.length = actionCount then
        decodeOutcomes results errs
      else
        .error "action arrays do not match the submitted action count"
    | _, _ => .error "invalid type: expected a sequence"
  | _ => .error "invalid type: expected struct SendResponse"

/-- Modelled from the spec: `Client::modify` — submit the full action
batch in one request and decode the response into one outcome per
action, in input order.  The request serialization and transport are
outside the model, so the function consumes the response body the
server delivers for the batch. -/
def Client.modify (actions : List Pocket.Action) (response : Json) : Except ClientError ModifyResponse :=
  match decodeSendResponse actions.length response with
  | .ok r => .ok r
  | .error e => .error (.ParseJSON e)

/-- Keys of a `StrMap`, in stored order. -/
def mapKeys (m : StrMap α) : List String := m.map Prod.fst

/-- Look a field up on a JSON value known to be an object. -/
def Json.objField : Json → String → Except String Json
  | .obj fs, name => getField fs name
  | _, _ => .error "not an object"

/-- The raw field list of the `list` object of a `/get` response body
(empty if the body does not have that shape). -/
def listFields (j : Json) : List (String × Json) :=
  match j with
  | .obj fs =>
    match getField fs "list" with
    | .ok (.obj lfs) => lfs
    | _ => []
  | _ => []

/-- Whether one wire record of a `list` object carries its own JSON key
in its `item_id` field. -/
def wireKeyOk (p : String × Json) : Bool :=
  match Json.objField p.2 "item_id" with
  | .ok (.str s) => s == p.1
  | _ => false

/-- The server-side invariant the spec assumes of `/get` responses:
every entry of the `list` object is keyed by its own `item_id`. -/
def WireKeyInvariant (j : Json) : Prop :=
  ∀ p ∈ listFields j, wireKeyOk p = true

/-- A predicate on the value of an optional field, trivially true when
the field is absent. -/
def optHolds (P : α → Prop) : Option α → Prop
  | none => True
  | some x => P x

instance {P : α → Prop} [DecidablePred P] : DecidablePred (optHolds P) := fun o =>
  match o with
  | none => Decidable.isTrue trivial
  | some x => if h : P x then .isTrue h else .isFalse h

/-- Well-formedness of the `BTreeMap` representation: keys strictly
ascending.  Every map built by the decoder satisfies it, as does every
Rust `BTreeMap` value. -/
def SortedKeys (m : StrMap α) : Prop :=
  m.Pairwise (fun p q => strLt p.1 q.1 = true)

/-- The representation invariant of a Rust `MainImage` value: its
`u32` fields fit in 32 bits. -/
def WfMainImage (i : MainImage) : Prop :=
  i.width < 2 ^ 32 ∧ i.height < 2 ^ 32

/-- The representation invariant of a Rust `Image` value. -/
def WfImage (i : Image) : Prop :=
  i.width < 2 ^ 32 ∧ i.height < 2 ^ 32

/-- The representation invariant of a Rust `Video` value. -/
def WfVideo (v : Video) : Prop :=
  v.width < 2 ^ 32 ∧ v.height < 2 ^ 32 ∧ v.video_type < 2 ^ 32 ∧
  optHolds (· < 2 ^ 32) v.length

/-- The representation invariant of a Rust `Item` value: every numeric
field fits its Rust integer type and every nested `BTreeMap` is sorted
with well-formed elements. -/
def WfItem (it : Item) : Prop :=
  it.word_count < 2 ^ 64 ∧ it.time_added < 2 ^ 64 ∧ it.time_updated < 2 ^ 64 ∧
  it.time_read < 2 ^ 64 ∧ it.time_favorited < 2 ^ 64 ∧ it.sort_id < 2 ^ 32 ∧
  it.listen_duration_estimate < 2 ^ 64 ∧ optHolds (· < 2 ^ 64) it.time_to_read ∧
  optHolds (fun m => SortedKeys m ∧ ∀ p ∈ m, WfImage p.2) it.images ∧
  optHolds (fun m => SortedKeys m ∧ ∀ p ∈ m, WfVideo p.2) it.videos ∧
  optHolds (fun m => SortedKeys m) it.authors ∧
  optHolds (fun m => SortedKeys m) it.tags ∧
  optHolds WfMainImage it.image

/-- A concrete well-formed item used to witness the codec round
trip. -/
def demoItem (article index : Bool) : Item :=
  { item_id := "1", resolved_id := "1", given_url := "http://a", resolved_url := "http://b",
    given_title := "g", resolved_title := "t", favorite := .NotFavorited,
    status := .Unread, excerpt := "e", is_article := article, has_image := .No,
    has_video := .Yes, word_count := 37, time_added := 1700000000, time_updated := 1700000001,
    time_read := 0, time_favorited := 0, sort_id := 5, is_index := index,
    lang := "en", top_image_url := none, domain_metadata := none,
    listen_duration_estimate := 3, time_to_read := some 7, amp_url := none,
    images := some [("1", { item_id := "1", image_id := "1", src := "s",
                            width := 10, height := 20, credit := "", caption := "" })],
    videos := none, authors := none,
    tags := some [("a", { item_id := "1", tag := "a" }), ("b", { item_id := "1", tag := "b" })],
    image := none }

/-- Unfolding lemma: binding a success runs the continuation. -/
theorem except_bind_ok (a : α) (f : α → Except ε β) :
    (Except.ok a >>= f : Except ε β) = f a := rfl

/-- Unfolding lemma: binding an error short-circuits. -/
theorem except_bind_error (e : ε) (f : α → Except ε β) :
    (Except.error e >>= f : Except ε β) = .error e := rfl

/-- Inversion: a successful bind factors through a successful first
step. -/
theorem except_bind_eq_ok {e : Except ε α} {f : α → Except ε β} {b : β}
    (h : (e >>= f) = .ok b) : ∃ a, e = .ok a ∧ f a = .ok b := by
  cases e with
  | ok a => exact ⟨a, rfl, h⟩
  | error e1 => rw [except_bind_error] at h; simp at h

/-- C9: for every `Item`, the effective URL (`Item::url`) is
`resolved_url` when `resolved_url` is a non-empty string and
`given_url` otherwise. -/
theorem C9_effective_url (it : Item) :
    Item.url it = if it.resolved_url = "" then it.given_url else it.resolved_url := by
  unfold Item.url
  by_cases h : it.resolved_url = "" <;> simp [h]

/-- C7: the wire boolean decoder maps the string "0" to `false` and
the string "1" to `true`, and every other JSON value (any other string
or any non-string) to a decode error. -/
theorem C7_wire_bool_decoder (j : Json) :
    (deserialize_string_to_bool j = .ok false ↔ j = .str "0") ∧
    (deserialize_string_to_bool j = .ok true ↔ j = .str "1") ∧
    ((∃ e, deserialize_string_to_bool j = .error e) ↔ j ≠ .str "0" ∧ j ≠ .str "1") := by
  cases j <;>
    simp only [deserialize_string_to_bool, decodeString, except_bind_ok, except_bind_error,
      bind, Except.bind] <;>
    try simp
  case str s =>
    by_cases h0 : s = "0"
    · subst h0; simp [pure, Except.pure]
    · by_cases h1 : s = "1"
      · subst h1; simp [pure, Except.pure]
      · have : (match s with
            | "0" => pure false
            | "1" => pure true
            | _ => Except.error "invalid value: expected 0 or 1"
            : Except String Bool) = .error "invalid value: expected 0 or 1" := by
          split <;> simp_all
        simp [this, h0, h1]

/-- C2: a response body whose `list` field is an empty JSON object
decodes as `Parsed` carrying an empty item map, not as the `NoMore`
sentinel. -/
theorem C2_empty_object_is_parsed (fs : List (String × Json))
    (h : getField fs "list" = .ok (.obj [])) :
    parse_all_response (.obj fs) = .Parsed ⟨[]⟩ := by
  have hd : decodeReadingListResponse (.obj fs) = .ok ⟨[]⟩ := by
    simp [decodeReadingListResponse, decodeField, h, bind, Except.bind, decodeStrMap,
      decodeStrMapFields, pure, Except.pure]
  simp [parse_all_response, hd]

/-- Witness for C2 at the concrete body `{"list": {}}`. -/
theorem C2_witness :
    getField [("list", Json.obj [])] "list" = .ok (.obj []) ∧
    parse_all_response (.obj [("list", .obj [])]) = .Parsed ⟨[]⟩ :=
  ⟨rfl, C2_empty_object_is_parsed _ rfl⟩

/-- C10: a `get` call whose response body classifies as the `NoMore`
pagination sentinel returns `Ok` with an empty reading list rather than
an error, and its result is the same as for a validly-empty-object
page. -/
theorem C10_get_absorbs_sentinel (response empty_page : Json)
    (h1 : parse_all_response response = .NoMore)
    (h2 : parse_all_response empty_page = .Parsed ⟨[]⟩) :
    Client.get response = .ok ([] : ReadingList) ∧
    Client.get response = Client.get empty_page := by
  constructor
  · simp [Client.get, h1]
  · simp [Client.get, h1, h2, ReadingList.extend]

/-- Witness for C10 at the concrete bodies `{"list": []}` and
`{"list": {}}`. -/
theorem C10_witness :
    parse_all_response (.obj [("list", .arr [])]) = .NoMore ∧
    Client.get (.obj [("list", .arr [])]) = .ok [] :=
  ⟨by decide,
    (C10_get_absorbs_sentinel (.obj [("list", .arr [])]) (.obj [("list", .obj [])])
      (by decide) (by decide)).1⟩

/-- C3: when the map-shaped decode of a response body fails, the
empty-array fallback decides the classification — an empty array is
`NoMore`, a non-empty array is `Error`, a failing fallback is `Error` —
and both `Error` cases carry the decode error of the first (map-shaped)
attempt. -/
theorem C3_fallback_classification (j : Json) (e : String)
    (h : decodeReadingListResponse j = .error e) :
    (∀ r, decodeEmptyReadingListResponse j = .ok r →
      (r.list = [] → parse_all_response j = .NoMore) ∧
      (r.list ≠ [] → parse_all_response j = .Error e)) ∧
    (∀ e2, decodeEmptyReadingListResponse j = .error e2 → parse_all_response j = .Error e) := by
  constructor
  · intro r hr
    constructor
    · intro hl
      simp [parse_all_response, h, hr, hl]
    · intro hl
      obtain ⟨a, l, hcons⟩ := List.exists_cons_of_ne_nil hl
      simp [parse_all_response, h, hr, hcons]
  · intro e2 he2
    simp [parse_all_response, h, he2]

/-- Witness for C3 at the concrete body `{"list": []}`: the map-shaped
attempt fails, the fallback succeeds with an empty array, and the body
classifies as `NoMore`. -/
theorem C3_witness :
    decodeReadingListResponse (.obj [("list", .arr [])]) = .error "invalid type: expected a map" ∧
    decodeEmptyReadingListResponse (.obj [("list", .arr [])]) = .ok ⟨[]⟩ ∧
    parse_all_response (.obj [("list", .arr [])]) = .NoMore :=
  ⟨by decide, by decide,
    ((C3_fallback_classification (.obj [("list", .arr [])]) "invalid type: expected a map"
      (by decide)).1 ⟨[]⟩ (by decide)).1 rfl⟩

/-- Inversion for a required string field: a successful decode pins the
raw JSON value to a string. -/
theorem decodeField_string_inv {fs : List (String × Json)} {n : String} {a : String}
    (h : decodeField fs n decodeString = .ok a) :
    getField fs n = .ok (.str a) := by
  unfold decodeField at h
  obtain ⟨v, hv, hd⟩ := except_bind_eq_ok h
  cases v <;> simp [decodeString] at hd
  subst hd
  exact hv

/-- A successfully decoded `Item` read its `item_id` from the raw
`item_id` field of its wire record. -/
theorem decodeItem_item_id {fs : List (String × Json)} {it : Item}
    (h : decodeItem (.obj fs) = .ok it) :
    getField fs "item_id" = .ok (.str it.item_id) := by
  simp only [decodeItem] at h
  obtain ⟨a, h1, h⟩ := except_bind_eq_ok h
  repeat obtain ⟨_, -, h⟩ := except_bind_eq_ok h
  simp only [pure, Except.pure] at h
  injection h with h
  subst h
  exact decodeField_string_inv h1

/-- A successfully decoded `DeletedItem` read its `item_id` from the
raw `item_id` field of its wire record. -/
theorem decodeDeletedItem_item_id {fs : List (String × Json)} {d : DeletedItem}
    (h : decodeDeletedItem (.obj fs) = .ok d) :
    getField fs "item_id" = .ok (.str d.item_id) := by
  simp only [decodeDeletedItem] at h
  obtain ⟨a, h1, h⟩ := except_bind_eq_ok h
  simp only [pure, Except.pure] at h
  injection h with h
  subst h
  exact decodeField_string_inv h1

/-- Either way the untagged union decodes, the resulting entry's
`item_id` is the string stored in the wire record's `item_id` field. -/
theorem decodeItemOrDeletedItem_item_id {v : Json} {x : ItemOrDeletedItem}
    (h : decodeItemOrDeletedItem v = .ok x) :
    Json.objField v "item_id" = .ok (.str (ItemOrDeletedItem.item_id x)) := by
  unfold decodeItemOrDeletedItem at h
  cases hi : decodeItem v with
  | ok it =>
    rw [hi] at h
    injection h with h
    subst h
    cases v with
    | obj fs => exact decodeItem_item_id hi
    | null => simp [decodeItem] at hi
    | bool b => simp [decodeItem] at hi
    | num n => simp [decodeItem] at hi
    | str s => simp [decodeItem] at hi
    | arr es => simp [decodeItem] at hi
  | error e1 =>
    rw [hi] at h
    cases hd : decodeDeletedItem v with
    | ok d =>
      rw [hd] at h
      injection h with h
      subst h
      cases v with
      | obj fs => exact decodeDeletedItem_item_id hd
      | null => simp [decodeDeletedItem] at hd
      | bool b => simp [decodeDeletedItem] at hd
      | num n => simp [decodeDeletedItem] at hd
      | str s => simp [decodeDeletedItem] at hd
      | arr es => simp [decodeDeletedItem] at hd
    | error e2 =>
      rw [hd] at h
      simp at h

/-- An entry of `mapInsert k0 a l` is the inserted pair or an entry of
`l`. -/
theorem mem_mapInsert {k0 k : String} {a x : α} :
    ∀ {l : StrMap α}, (k, x) ∈ mapInsert k0 a l → (k = k0 ∧ x = a) ∨ (k, x) ∈ l := by
  intro l
  induction l with
  | nil =>
    intro h
    simp [mapInsert] at h
    exact Or.inl h
  | cons p rest ih =>
    intro h
    obtain ⟨k', v'⟩ := p
    simp only [mapInsert] at h
    by_cases h1 : strLt k0 k' = true
    · rw [if_pos h1] at h
      rcases List.mem_cons.1 h with h2 | h2
      · exact Or.inl (by simpa using h2)
      · exact Or.inr h2
    · rw [if_neg h1] at h
      by_cases h2 : k0 = k'
      · rw [if_pos h2] at h
        rcases List.mem_cons.1 h with h3 | h3
        · exact Or.inl (by simpa using h3)
        · exact Or.inr (List.mem_cons_of_mem _ h3)
      · rw [if_neg h2] at h
        rcases List.mem_cons.1 h with h3 | h3
        · exact Or.inr (by simp [h3])
        · rcases ih h3 with h4 | h4
          · exact Or.inl h4
          · exact Or.inr (List.mem_cons_of_mem _ h4)

/-- Every entry of a decoded map comes from a raw field with the same
key whose value decodes to the entry's value (or from the
accumulator). -/
theorem decodeStrMapFields_mem {dec : Json → Except String α} :
    ∀ (fields : List (String × Json)) (acc m : StrMap α),
    decodeStrMapFields dec fields acc = .ok m →
    ∀ k x, (k, x) ∈ m → (k, x) ∈ acc ∨ ∃ v, (k, v) ∈ fields ∧ dec v = .ok x := by
  intro fields
  induction fields with
  | nil =>
    intro acc m h k x hm
    simp [decodeStrMapFields] at h
    subst h
    exact Or.inl hm
  | cons p rest ih =>
    intro acc m h k x hm
    obtain ⟨k0, v0⟩ := p
    simp only [decodeStrMapFields] at h
    obtain ⟨a, ha, h⟩ := except_bind_eq_ok h
    rcases ih _ _ h k x hm with hacc | ⟨v, hv, hdv⟩
    · rcases mem_mapInsert hacc with ⟨hk, hx⟩ | hacc2
      · subst hk; subst hx
        exact Or.inr ⟨v0, by simp, ha⟩
      · exact Or.inl hacc2
    · exact Or.inr ⟨v, by simp [hv], hdv⟩

/-- An entry of `extend acc page` is an entry of the accumulator or of
the page. -/
theorem mem_extend :
    ∀ (page : List (ItemId × ItemOrDeletedItem)) (acc : ReadingList)
      {p : ItemId × ItemOrDeletedItem},
    p ∈ ReadingList.extend acc page → p ∈ acc ∨ p ∈ page := by
  intro page
  induction page with
  | nil => intro acc p h; exact Or.inl h
  | cons q rest ih =>
    intro acc p h
    have hstep : ReadingList.extend acc (q :: rest)
        = ReadingList.extend (mapInsert q.1 q.2 acc) rest := by
      simp [ReadingList.extend]
    rw [hstep] at h
    rcases ih _ h with h1 | h1
    · obtain ⟨k, x⟩ := p
      rcases mem_mapInsert h1 with ⟨hk, hx⟩ | h2
      · subst hk; subst hx
        exact Or.inr (by simp)
      · exact Or.inl h2
    · exact Or.inr (List.mem_cons_of_mem _ h1)

/-- A `Parsed` classification pins down a successful map-shaped
decode. -/
theorem parse_all_response_parsed_inv {j : Json} {r : ReadingListResponse}
    (h : parse_all_response j = .Parsed r) :
    decodeReadingListResponse j = .ok r := by
  unfold parse_all_response at h
  cases hd : decodeReadingListResponse j with
  | ok r2 => rw [hd] at h; injection h with h; subst h; rfl
  | error e =>
    rw [hd] at h
    cases he : decodeEmptyReadingListResponse j with
    | ok r2 =>
      rw [he] at h
      by_cases hb : r2.list.isEmpty <;> simp [hb] at h
    | error e2 => rw [he] at h; simp at h

/-- A successful map-shaped decode is the fold of the raw `list`
fields. -/
theorem decodeReadingListResponse_listFields {j : Json} {r : ReadingListResponse}
    (h : decodeReadingListResponse j = .ok r) :
    decodeStrMapFields decodeItemOrDeletedItem (listFields j) [] = .ok r.list := by
  cases j with
  | obj fs =>
    simp only [decodeReadingListResponse] at h
    obtain ⟨a, ha, h⟩ := except_bind_eq_ok h
    simp only [pure, Except.pure] at h
    injection h with h
    subst h
    unfold decodeField at ha
    obtain ⟨jl, hjl, hda⟩ := except_bind_eq_ok ha
    cases jl with
    | obj lfs =>
      simp only [listFields, hjl]
      simpa [decodeStrMap] using hda
    | null => simp [decodeStrMap] at hda
    | bool b => simp [decodeStrMap] at hda
    | num n => simp [decodeStrMap] at hda
    | str s => simp [decodeStrMap] at hda
    | arr es => simp [decodeStrMap] at hda
  | null => simp [decodeReadingListResponse] at h
  | bool b => simp [decodeReadingListResponse] at h
  | num n => simp [decodeReadingListResponse] at h
  | str s => simp [decodeReadingListResponse] at h
  | arr es => simp [decodeReadingListResponse] at h

/-- Core of the amended C6: under the wire invariant, every entry of a
page that classifies as `Parsed` has its key equal to its own
`item_id`. -/
theorem parsed_entries_key_eq_item_id {j : Json} {r : ReadingListResponse}
    (hp : parse_all_response j = .Parsed r) (hw : WireKeyInvariant j) :
    ∀ p ∈ r.list, ItemOrDeletedItem.item_id p.2 = p.1 := by
  have hd := parse_all_response_parsed_inv hp
  have hlf := decodeReadingListResponse_listFields hd
  intro p hm
  obtain ⟨k, x⟩ := p
  rcases decodeStrMapFields_mem _ _ _ hlf k x hm with h0 | ⟨v, hv, hdv⟩
  · simp at h0
  · have hid := decodeItemOrDeletedItem_item_id hdv
    have hok := hw (k, v) hv
    unfold wireKeyOk at hok
    rw [hid] at hok
    simpa using hok

/-- Loop invariant for `list_all`: the key-equals-item-id property is
preserved across pages that satisfy the wire invariant. -/
theorem list_all_loop_key_inv :
    ∀ (responses : List Json) (acc m : ReadingList),
    (∀ j ∈ responses, WireKeyInvariant j) →
    (∀ p ∈ acc, ItemOrDeletedItem.item_id p.2 = p.1) →
    Client.list_all_loop responses acc = some (.ok m) →
    ∀ p ∈ m, ItemOrDeletedItem.item_id p.2 = p.1 := by
  intro responses
  induction responses with
  | nil => intro acc m _ _ h; simp [Client.list_all_loop] at h
  | cons r0 rest ih =>
    intro acc m hw hacc h
    simp only [Client.list_all_loop] at h
    cases hp : parse_all_response r0 with
    | NoMore =>
      rw [hp] at h
      injection h with h
      injection h with h
      subst h
      exact hacc
    | Parsed pr =>
      rw [hp] at h
      refine ih _ _ (fun j hj => hw j (List.mem_cons_of_mem _ hj)) ?_ h
      intro p hp2
      rcases mem_extend _ _ hp2 with h1 | h1
      · exact hacc p h1
      · exact parsed_entries_key_eq_item_id hp (hw r0 (by simp)) p h1
    | Error e =>
      rw [hp] at h
      injection h with h
      simp at h

/-- C6 counterexample: the code does not validate that a map key
matches the entry's own `item_id` — the body
`{"list": {"a": {"item_id": "b"}}}` makes `get` return a reading list
whose single entry is stored under key "a" while its `item_id` is "b". -/
theorem C6_counterexample :
    Client.get (.obj [("list", .obj [("a", .obj [("item_id", .str "b")])])])
      = .ok [("a", .DeletedItem ⟨"b"⟩)] ∧
    ItemOrDeletedItem.item_id (.DeletedItem ⟨"b"⟩) ≠ "a" :=
  ⟨by decide, by decide⟩

/-- C6 (amended): provided every wire record of each page's `list`
object is keyed by its own `item_id` field (the server invariant the
spec assumes), every entry of a reading list returned by `get` or by
`list_all` has its key equal to that entry's own `item_id`. -/
theorem C6_key_matches_item_id :
    (∀ (j : Json) (m : ReadingList), WireKeyInvariant j → Client.get j = .ok m →
      ∀ p ∈ m, ItemOrDeletedItem.item_id p.2 = p.1) ∧
    (∀ (responses : List Json) (m : ReadingList),
      (∀ j ∈ responses, WireKeyInvariant j) →
      Client.list_all responses = some (.ok m) →
      ∀ p ∈ m, ItemOrDeletedItem.item_id p.2 = p.1) := by
  constructor
  · intro j m hw hg p hp2
    unfold Client.get at hg
    cases hp : parse_all_response j with
    | NoMore =>
      rw [hp] at hg
      injection hg with hg
      subst hg
      simp at hp2
    | Parsed pr =>
      rw [hp] at hg
      injection hg with hg
      subst hg
      rcases mem_extend _ _ hp2 with h1 | h1
      · simp at h1
      · exact parsed_entries_key_eq_item_id hp hw p h1
    | Error e =>
      rw [hp] at hg
      simp at hg
  · intro responses m hw h
    exact list_all_loop_key_inv responses [] m hw (by simp) h

/-- Witness for the amended C6 at the concrete body
`{"list": {"b": {"item_id": "b"}}}`. -/
theorem C6_witness :
    WireKeyInvariant (.obj [("list", .obj [("b", .obj [("item_id", .str "b")])])]) ∧
    ItemOrDeletedItem.item_id (.DeletedItem ⟨"b"⟩) = "b" :=
  ⟨by unfold WireKeyInvariant; decide,
    (C6_key_matches_item_id.1 (.obj [("list", .obj [("b", .obj [("item_id", .str "b")])])])
      [("b", .DeletedItem ⟨"b"⟩)] (by unfold WireKeyInvariant; decide) rfl
      ("b", .DeletedItem ⟨"b"⟩) (by simp))⟩

/-- The character-list order is irreflexive. -/
theorem charListLt_irrefl : ∀ l : List Char, charListLt l l = false
  | [] => rfl
  | c :: cs => by simp [charListLt, charListLt_irrefl cs]

/-- The character-list order is transitive. -/
theorem charListLt_trans : ∀ (a b c : List Char),
    charListLt a b = true → charListLt b c = true → charListLt a c = true := by
  intro a
  induction a with
  | nil =>
    intro b c h1 h2
    cases b with
    | nil => simp [charListLt] at h1
    | cons y ys =>
      cases c with
      | nil => simp [charListLt] at h2
      | cons z zs => simp [charListLt]
  | cons x xs ih =>
    intro b c h1 h2
    cases b with
    | nil => simp [charListLt] at h1
    | cons y ys =>
      cases c with
      | nil => simp [charListLt] at h2
      | cons z zs =>
        simp only [charListLt] at h1 h2 ⊢
        by_cases hxy : x.toNat < y.toNat
        · by_cases hyz : y.toNat < z.toNat
          · simp [show x.toNat < z.toNat by omega]
          · by_cases hzy : z.toNat < y.toNat
            · simp [hyz, hzy] at h2
            · simp [show x.toNat < z.toNat by omega]
        · by_cases hyx : y.toNat < x.toNat
          · simp [hxy, hyx] at h1
          · by_cases hyz : y.toNat < z.toNat
            · simp [show x.toNat < z.toNat by omega]
            · by_cases hzy : z.toNat < y.toNat
              · simp [hyz, hzy] at h2
              · have hrec1 : charListLt xs ys = true := by simpa [hxy, hyx] using h1
                have hrec2 : charListLt ys zs = true := by simpa [hyz, hzy] using h2
                simp [show ¬ x.toNat < z.toNat by omega, show ¬ z.toNat < x.toNat by omega,
                  ih ys zs hrec1 hrec2]

/-- Two characters with the same code point are equal. -/
theorem char_eq_of_toNat_eq {a b : Char} (h : a.toNat = b.toNat) : a = b := by
  apply Char.eq_of_val_eq
  first
  | exact UInt32.toNat_inj.mp h
  | exact UInt32.eq_of_toNat_eq h
  | exact UInt32.ext h

/-- The character-list order is total: two mutually non-smaller lists
are equal. -/
theorem charListLt_eq_of_not_lt : ∀ (a b : List Char),
    charListLt a b = false → charListLt b a = false → a = b := by
  intro a
  induction a with
  | nil =>
    intro b h1 h2
    cases b with
    | nil => rfl
    | cons y ys => simp [charListLt] at h1
  | cons x xs ih =>
    intro b h1 h2
    cases b with
    | nil => simp [charListLt] at h2
    | cons y ys =>
      simp only [charListLt] at h1 h2
      by_cases hxy : x.toNat < y.toNat
      · simp [hxy] at h1
      · by_cases hyx : y.toNat < x.toNat
        · simp [hxy, hyx] at h2
        · have hx : x = y := char_eq_of_toNat_eq (by omega)
          have hrec1 : charListLt xs ys = false := by simpa [hxy, hyx] using h1
          have hrec2 : charListLt ys xs = false := by simpa [hxy, hyx] using h2
          rw [hx, ih ys hrec1 hrec2]

/-- The string order is irreflexive. -/
theorem strLt_irrefl (s : String) : strLt s s = false := charListLt_irrefl s.data

/-- The string order is transitive. -/
theorem strLt_trans {a b c : String} (h1 : strLt a b = true) (h2 : strLt b c = true) :
    strLt a c = true := charListLt_trans a.data b.data c.data h1 h2

/-- The string order is total. -/
theorem strLt_eq_of_not_lt {a b : String} (h1 : strLt a b = false) (h2 : strLt b a = false) :
    a = b := by
  obtain ⟨la⟩ := a
  obtain ⟨lb⟩ := b
  exact congrArg String.mk (charListLt_eq_of_not_lt la lb h1 h2)

/-- Strictly smaller strings are distinct. -/
theorem strLt_ne {a b : String} (h : strLt a b = true) : a ≠ b := by
  intro he
  subst he
  rw [strLt_irrefl] at h
  cases h

/-- Totality in the form the insertion proofs use. -/
theorem strLt_of_not_lt_of_ne {a b : String} (h1 : strLt a b = false) (h2 : a ≠ b) :
    strLt b a = true := by
  cases hc : strLt b a with
  | false => exact absurd (strLt_eq_of_not_lt h1 hc) h2
  | true => rfl

/-- The string order is asymmetric. -/
theorem strLt_asymm {a b : String} (h : strLt a b = true) : strLt b a = false := by
  cases hc : strLt b a with
  | false => rfl
  | true =>
    have := strLt_trans h hc
    rw [strLt_irrefl] at this
    cases this

/-- Ordered insertion preserves the representation invariant. -/
theorem sortedKeys_mapInsert {k : String} {v : α} :
    ∀ {l : StrMap α}, SortedKeys l → SortedKeys (mapInsert k v l) := by
  intro l
  induction l with
  | nil =>
    intro _
    simp [mapInsert, SortedKeys]
  | cons p rest ih =>
    intro h
    obtain ⟨k', v'⟩ := p
    rw [SortedKeys, List.pairwise_cons] at h
    obtain ⟨hhead, htail⟩ := h
    simp only [mapInsert]
    by_cases h1 : strLt k k' = true
    · rw [if_pos h1]
      rw [SortedKeys, List.pairwise_cons]
      refine ⟨?_, List.Pairwise.cons hhead htail⟩
      intro q hq
      rcases List.mem_cons.1 hq with hq1 | hq1
      · subst hq1; exact h1
      · exact strLt_trans h1 (hhead q hq1)
    · rw [if_neg h1]
      by_cases h2 : k = k'
      · rw [if_pos h2]
        rw [SortedKeys, List.pairwise_cons]
        subst h2
        exact ⟨hhead, htail⟩
      · rw [if_neg h2]
        rw [SortedKeys, List.pairwise_cons]
        constructor
        · intro q hq
          obtain ⟨a, x⟩ := q
          rcases mem_mapInsert hq with ⟨ha, hx⟩ | hq2
          · subst ha
            exact strLt_of_not_lt_of_ne (by simpa using h1) h2
          · exact hhead _ hq2
        · exact ih htail

/-- Decoding a map yields a well-formed `BTreeMap`. -/
theorem sortedKeys_decodeStrMapFields {dec : Json → Except String α} :
    ∀ (fields : List (String × Json)) (acc m : StrMap α),
    SortedKeys acc → decodeStrMapFields dec fields acc = .ok m → SortedKeys m := by
  intro fields
  induction fields with
  | nil =>
    intro acc m hs h
    simp [decodeStrMapFields] at h
    subst h
    exact hs
  | cons p rest ih =>
    intro acc m hs h
    obtain ⟨k0, v0⟩ := p
    simp only [decodeStrMapFields] at h
    obtain ⟨a, _, h⟩ := except_bind_eq_ok h
    exact ih _ _ (sortedKeys_mapInsert hs) h

/-- A well-formed map has no duplicate keys. -/
theorem nodup_mapKeys_of_sorted {m : StrMap α} (h : SortedKeys m) : (mapKeys m).Nodup := by
  unfold mapKeys
  rw [List.nodup_iff_sublist]
  intro a ha
  have : m.Pairwise (fun p q => p.1 ≠ q.1) := h.imp (fun hlt => strLt_ne hlt)
  have h2 : (m.map Prod.fst).Pairwise (fun a b => a ≠ b) := List.pairwise_map.mpr this
  exact absurd (List.Pairwise.sublist ha h2) (by simp)

/-- A page that classifies as `Parsed` carries a well-formed map. -/
theorem parse_all_response_parsed_sorted {j : Json} {p : ReadingList}
    (h : parse_all_response j = .Parsed ⟨p⟩) : SortedKeys p := by
  have hd := parse_all_response_parsed_inv h
  have hlf := decodeReadingListResponse_listFields hd
  exact sortedKeys_decodeStrMapFields _ _ _ (by simp [SortedKeys]) hlf

/-- Keys after insertion: the inserted key plus the old keys. -/
theorem mapKeys_mapInsert {k : String} {v : α} :
    ∀ (l : StrMap α) (a : String),
    a ∈ mapKeys (mapInsert k v l) ↔ a = k ∨ a ∈ mapKeys l := by
  intro l
  induction l with
  | nil => intro a; simp [mapInsert, mapKeys]
  | cons p rest ih =>
    intro a
    obtain ⟨k', v'⟩ := p
    simp only [mapInsert]
    by_cases h1 : strLt k k' = true
    · rw [if_pos h1]
      simp [mapKeys]
    · rw [if_neg h1]
      by_cases h2 : k = k'
      · rw [if_pos h2]
        subst h2
        simp [mapKeys]
      · rw [if_neg h2]
        have := ih a
        simp only [mapKeys, List.map_cons, List.mem_cons] at this ⊢
        rw [this]
        tauto

/-- Inserting a fresh key grows the map by one entry. -/
theorem length_mapInsert_of_not_mem {k : String} {v : α} :
    ∀ {l : StrMap α}, k ∉ mapKeys l → (mapInsert k v l).length = l.length + 1 := by
  intro l
  induction l with
  | nil => intro _; rfl
  | cons p rest ih =>
    intro h
    obtain ⟨k', v'⟩ := p
    simp only [mapKeys, List.map_cons, List.mem_cons] at h
    push_neg at h
    obtain ⟨hne, hnotin⟩ := h
    simp only [mapInsert]
    by_cases h1 : strLt k k' = true
    · rw [if_pos h1]; rfl
    · rw [if_neg h1, if_neg hne]
      simp [ih hnotin]

/-- Keys after a page merge: union of accumulator and page keys. -/
theorem mapKeys_extend :
    ∀ (page : List (ItemId × ItemOrDeletedItem)) (acc : ReadingList) (a : String),
    a ∈ mapKeys (ReadingList.extend acc page) ↔ a ∈ mapKeys acc ∨ a ∈ mapKeys page := by
  intro page
  induction page with
  | nil => intro acc a; simp [ReadingList.extend, mapKeys]
  | cons q rest ih =>
    intro acc a
    have hstep : ReadingList.extend acc (q :: rest)
        = ReadingList.extend (mapInsert q.1 q.2 acc) rest := by
      simp [ReadingList.extend]
    rw [hstep, ih, mapKeys_mapInsert]
    simp only [mapKeys, List.map_cons, List.mem_cons]
    tauto

/-- Size after a page merge with fresh, duplicate-free page keys:
the sizes add. -/
theorem length_extend :
    ∀ (page : List (ItemId × ItemOrDeletedItem)) (acc : ReadingList),
    (mapKeys page).Nodup →
    (∀ a ∈ mapKeys page, a ∉ mapKeys acc) →
    (ReadingList.extend acc page).length = acc.length + page.length := by
  intro page
  induction page with
  | nil => intro acc _ _; rfl
  | cons q rest ih =>
    intro acc hnodup hdisj
    have hstep : ReadingList.extend acc (q :: rest)
        = ReadingList.extend (mapInsert q.1 q.2 acc) rest := by
      simp [ReadingList.extend]
    rw [hstep]
    simp only [mapKeys, List.map_cons, List.nodup_cons] at hnodup
    obtain ⟨hq, hrest⟩ := hnodup
    have hlen : (mapInsert q.1 q.2 acc).length = acc.length + 1 :=
      length_mapInsert_of_not_mem (hdisj q.1 (by simp [mapKeys]))
    have hdisj2 : ∀ a ∈ mapKeys rest, a ∉ mapKeys (mapInsert q.1 q.2 acc) := by
      intro a ha
      rw [mapKeys_mapInsert]
      push_neg
      constructor
      · intro he
        subst he
        exact hq ha
      · exact hdisj a (by simp [mapKeys]; exact Or.inr (by simpa [mapKeys] using ha))
    rw [ih _ hrest hdisj2, hlen]
    simp
    omega

/-- For every value of `Forall₂` related lists, each right element has
a related left element. -/
theorem forall₂_exists_left {R : α → β → Prop} :
    ∀ {l1 : List α} {l2 : List β}, List.Forall₂ R l1 l2 →
    ∀ b ∈ l2, ∃ a ∈ l1, R a b := by
  intro l1 l2 h
  induction h with
  | nil => intro b hb; simp at hb
  | cons hr _ ih =>
    intro b hb
    rcases List.mem_cons.1 hb with hb1 | hb1
    · subst hb1
      exact ⟨_, by simp, hr⟩
    · obtain ⟨a, ha, har⟩ := ih b hb1
      exact ⟨a, List.mem_cons_of_mem _ ha, har⟩

/-- The pagination loop consumes a prefix of pages that classify as
`Parsed` by merging them into the accumulator. -/
theorem list_all_loop_parsed_prefix {pbodies : List Json} {pages : List ReadingList}
    (hpages : List.Forall₂ (fun b p => parse_all_response b = .Parsed ⟨p⟩) pbodies pages) :
    ∀ (tail : List Json) (acc : ReadingList),
    Client.list_all_loop (pbodies ++ tail) acc
      = Client.list_all_loop tail (pages.foldl ReadingList.extend acc) := by
  induction hpages with
  | nil => intro tail acc; simp
  | cons hr _ ih =>
    intro tail acc
    simp only [List.cons_append, Client.list_all_loop, hr, List.foldl_cons]
    exact ih tail _

/-- Key set and size of a fold of page merges over pairwise-disjoint,
duplicate-free pages. -/
theorem foldl_extend_props :
    ∀ (pages : List ReadingList) (acc : ReadingList),
    (∀ p ∈ pages, (mapKeys p).Nodup) →
    pages.Pairwise (fun p q => ∀ a ∈ mapKeys p, a ∉ mapKeys q) →
    (∀ p ∈ pages, ∀ a ∈ mapKeys p, a ∉ mapKeys acc) →
    (∀ a, a ∈ mapKeys (pages.foldl ReadingList.extend acc)
      ↔ a ∈ mapKeys acc ∨ ∃ p ∈ pages, a ∈ mapKeys p) ∧
    (pages.foldl ReadingList.extend acc).length
      = acc.length + (pages.map List.length).sum := by
  intro pages
  induction pages with
  | nil =>
    intro acc _ _ _
    constructor
    · intro a; simp
    · simp
  | cons p ps ih =>
    intro acc hnodup hpair hdisj
    rw [List.pairwise_cons] at hpair
    obtain ⟨hphead, hptail⟩ := hpair
    have hin : ∀ a ∈ mapKeys p, a ∉ mapKeys acc := hdisj p (by simp)
    have hdisj2 : ∀ q ∈ ps, ∀ a ∈ mapKeys q, a ∉ mapKeys (ReadingList.extend acc p) := by
      intro q hq a ha
      rw [mapKeys_extend]
      push_neg
      constructor
      · exact hdisj q (List.mem_cons_of_mem _ hq) a ha
      · intro hp
        exact hphead q hq a hp ha
    have := ih (ReadingList.extend acc p)
      (fun q hq => hnodup q (List.mem_cons_of_mem _ hq)) hptail hdisj2
    obtain ⟨hkeys, hlen⟩ := this
    constructor
    · intro a
      rw [List.foldl_cons, hkeys, mapKeys_extend]
      simp only [List.mem_cons]
      constructor
      · rintro ((h | h) | ⟨q, hq, hmem⟩)
        · exact Or.inl h
        · exact Or.inr ⟨p, Or.inl rfl, h⟩
        · exact Or.inr ⟨q, Or.inr hq, hmem⟩
      · rintro (h | ⟨q, hq | hq, hmem⟩)
        · exact Or.inl (Or.inl h)
        · subst hq; exact Or.inl (Or.inr hmem)
        · exact Or.inr ⟨q, hq, hmem⟩
    · rw [List.foldl_cons, hlen, length_extend p acc (hnodup p (by simp)) hin]
      simp
      omega

/-- C1: when the first k responses decode as map-shaped `list` pages
with pairwise disjoint item-id key sets and the (k+1)-th response is
the empty-array `NoMore` sentinel, `list_all` returns `Ok` of a reading
list whose key set is the union of the pages' key sets and whose size
is the sum of the page sizes. -/
theorem C1_list_all_merges_disjoint_pages
    (pbodies : List Json) (pages : List ReadingList) (sentinel : Json) (rest : List Json)
    (hpages : List.Forall₂ (fun b p => parse_all_response b = .Parsed ⟨p⟩) pbodies pages)
    (hsent : parse_all_response sentinel = .NoMore)
    (hdisj : pages.Pairwise (fun p q => ∀ a ∈ mapKeys p, a ∉ mapKeys q)) :
    ∃ m : ReadingList,
      Client.list_all (pbodies ++ sentinel :: rest) = some (.ok m) ∧
      (∀ a, a ∈ mapKeys m ↔ ∃ p ∈ pages, a ∈ mapKeys p) ∧
      m.length = (pages.map List.length).sum := by
  have hnodup : ∀ p ∈ pages, (mapKeys p).Nodup := by
    intro p hp
    obtain ⟨b, _, hb⟩ := forall₂_exists_left hpages p hp
    exact nodup_mapKeys_of_sorted (parse_all_response_parsed_sorted hb)
  have hloop := list_all_loop_parsed_prefix hpages (sentinel :: rest) []
  have hprops := foldl_extend_props pages [] hnodup hdisj (by intro p _ a _; simp [mapKeys])
  refine ⟨pages.foldl ReadingList.extend [], ?_, ?_, ?_⟩
  · rw [Client.list_all, hloop]
    simp [Client.list_all_loop, hsent]
  · intro a
    rw [hprops.1 a]
    simp [mapKeys]
  · rw [hprops.2]
    simp

/-- Witness for C1: two singleton pages with disjoint ids followed by
the `{"list": []}` sentinel merge into a two-entry reading list. -/
theorem C1_witness :
    parse_all_response (.obj [("list", .obj [("a", .obj [("item_id", .str "a")])])])
      = .Parsed ⟨[("a", .DeletedItem ⟨"a"⟩)]⟩ ∧
    parse_all_response (.obj [("list", .obj [("b", .obj [("item_id", .str "b")])])])
      = .Parsed ⟨[("b", .DeletedItem ⟨"b"⟩)]⟩ ∧
    parse_all_response (.obj [("list", .arr [])]) = .NoMore ∧
    ∃ m : ReadingList,
      Client.list_all [.obj [("list", .obj [("a", .obj [("item_id", .str "a")])])],
                       .obj [("list", .obj [("b", .obj [("item_id", .str "b")])])],
                       .obj [("list", .arr [])]] = some (.ok m) ∧
      (∀ a, a ∈ mapKeys m ↔
        ∃ p ∈ [[("a", ItemOrDeletedItem.DeletedItem ⟨"a"⟩)],
               [("b", ItemOrDeletedItem.DeletedItem ⟨"b"⟩)]], a ∈ mapKeys p) ∧
      m.length = ([[("a", ItemOrDeletedItem.DeletedItem ⟨"a"⟩)],
                   [("b", ItemOrDeletedItem.DeletedItem ⟨"b"⟩)]].map List.length).sum :=
  ⟨by decide, by decide, by decide,
    C1_list_all_merges_disjoint_pages
      [.obj [("list", .obj [("a", .obj [("item_id", .str "a")])])],
       .obj [("list", .obj [("b", .obj [("item_id", .str "b")])])]]
      [[("a", .DeletedItem ⟨"a"⟩)], [("b", .DeletedItem ⟨"b"⟩)]]
      (.obj [("list", .arr [])]) []
      (List.Forall₂.cons (by decide) (List.Forall₂.cons (by decide) List.Forall₂.nil))
      (by decide)
      (List.Pairwise.cons (by decide) (List.Pairwise.cons (by decide) List.Pairwise.nil))⟩

/-- C5: when the responses for the first pages classify as `Parsed`
and a later page classifies as a decode `Error`, `list_all` returns
that error — an `Except.error` carrying only the error, so the pages
accumulated before the failure are discarded. -/
theorem C5_list_all_aborts_on_error
    (pbodies : List Json) (pages : List ReadingList) (errBody : Json) (e : String)
    (rest : List Json)
    (hpages : List.Forall₂ (fun b p => parse_all_response b = .Parsed ⟨p⟩) pbodies pages)
    (herr : parse_all_response errBody = .Error e) :
    Client.list_all (pbodies ++ errBody :: rest) = some (.error (.ParseJSON e)) := by
  rw [Client.list_all, list_all_loop_parsed_prefix hpages (errBody :: rest) []]
  simp [Client.list_all_loop, herr]

/-- Witness for C5: one good page followed by a malformed body makes
`list_all` return the decode error of the malformed page. -/
theorem C5_witness :
    parse_all_response (.obj [("list", .str "x")]) = .Error "invalid type: expected a map" ∧
    Client.list_all [.obj [("list", .obj [("a", .obj [("item_id", .str "a")])])],
                     .obj [("list", .str "x")]]
      = some (.error (.ParseJSON "invalid type: expected a map")) :=
  ⟨by decide,
    C5_list_all_aborts_on_error
      [.obj [("list", .obj [("a", .obj [("item_id", .str "a")])])]]
      [[("a", .DeletedItem ⟨"a"⟩)]]
      (.obj [("list", .str "x")]) "invalid type: expected a map" []
      (List.Forall₂.cons (by decide) List.Forall₂.nil)
      (by decide)⟩

/-- Digit characters decode back to their digit value. -/
theorem digitVal_digitChar : ∀ d, d < 10 → digitVal (digitChar d) = some d := by decide

/-- The decimal parser processes an appended list left to right. -/
theorem decimalToNatAux_append : ∀ (l1 l2 : List Char) (acc : Nat),
    decimalToNatAux (l1 ++ l2) acc =
      match decimalToNatAux l1 acc with
      | some a => decimalToNatAux l2 a
      | none => none := by
  intro l1
  induction l1 with
  | nil => intro l2 acc; rfl
  | cons c cs ih =>
    intro l2 acc
    simp only [List.cons_append, decimalToNatAux]
    cases digitVal c with
    | some d => exact ih l2 _
    | none => rfl

/-- Parsing the rendered digits of `n` yields `n` (positionally shifted
by the accumulator). -/
theorem decimalToNatAux_digits : ∀ (fuel n acc : Nat), n ≤ fuel →
    decimalToNatAux ((natDigitsRevAux fuel n).reverse.map digitChar) acc
      = some (acc * 10 ^ (natDigitsRevAux fuel n).length + n) := by
  intro fuel
  induction fuel with
  | zero =>
    intro n acc h
    have : n = 0 := by omega
    subst this
    simp [natDigitsRevAux, decimalToNatAux]
  | succ fuel ih =>
    intro n acc h
    match n with
    | 0 => simp [natDigitsRevAux, decimalToNatAux]
    | m + 1 =>
      simp only [natDigitsRevAux]
      rw [List.reverse_cons, List.map_append, decimalToNatAux_append]
      have hle : (m + 1) / 10 ≤ fuel := by
        have := Nat.div_lt_self (Nat.succ_pos m) (show 1 < 10 by decide)
        omega
      rw [ih _ acc hle]
      simp only [List.map_cons, List.map_nil, decimalToNatAux]
      rw [digitVal_digitChar _ (Nat.mod_lt _ (by decide))]
      simp only [decimalToNatAux, List.length_cons]
      congr 1
      have hdm := Nat.div_add_mod (m + 1) 10
      rw [pow_succ, ← mul_assoc]
      set L := (natDigitsRevAux fuel ((m + 1) / 10)).length
      set X := acc * 10 ^ L
      omega

/-- Every rendered digit value is below ten. -/
theorem natDigitsRevAux_lt : ∀ (fuel n : Nat) {d : Nat}, d ∈ natDigitsRevAux fuel n → d < 10 := by
  intro fuel
  induction fuel with
  | zero =>
    intro n d hd
    cases n <;> simp [natDigitsRevAux] at hd
  | succ fuel ih =>
    intro n d hd
    cases n with
    | zero => simp [natDigitsRevAux] at hd
    | succ m =>
      simp only [natDigitsRevAux, List.mem_cons] at hd
      rcases hd with hd | hd
      · subst hd; exact Nat.mod_lt _ (by decide)
      · exact ih _ hd

/-- Code point of a digit character. -/
theorem digitChar_toNat : ∀ d, d < 10 → (digitChar d).toNat = 48 + d := by decide

/-- A digit character is not the plus sign. -/
theorem digitChar_ne_plus {d : Nat} (h : d < 10) : digitChar d ≠ '+' := by
  intro he
  have h1 := digitChar_toNat d h
  rw [he] at h1
  have h2 : ('+').toNat = 43 := by decide
  omega

/-- Round trip of the decimal codec: Rust's `FromStr` parses Rust's
`Display` rendering back to the original value when it fits the
type's bound. -/
theorem rustParseUnsigned_natToDecimal {bound n : Nat} (h : n < bound) :
    rustParseUnsigned bound (natToDecimal n) = some n := by
  by_cases h0 : n = 0
  · subst h0
    have h1 : natToDecimal 0 = "0" := rfl
    have hd : ("0" : String).data = ['0'] := rfl
    have hs : stripLeadingPlus ['0'] = ['0'] := by decide
    have hdec : decimalToNatAux ['0'] 0 = some 0 := by decide
    rw [h1]
    simp only [rustParseUnsigned, hd, hs, hdec]
    simp [h]
  · obtain ⟨d, ds, hds⟩ : ∃ d ds, (natDigitsRev n).reverse = d :: ds := by
      have hne : natDigitsRev n ≠ [] := by
        match n, h0 with
        | m + 1, _ => simp [natDigitsRev, natDigitsRevAux]
      obtain ⟨d, ds, hds⟩ :=
        List.exists_cons_of_ne_nil (by simpa using hne : (natDigitsRev n).reverse ≠ [])
      exact ⟨d, ds, hds⟩
    have hd10 : d < 10 := by
      have : d ∈ natDigitsRev n := by
        rw [← List.mem_reverse, hds]; simp
      exact natDigitsRevAux_lt n n this
    have hdata : (natToDecimal n).data = digitChar d :: ds.map digitChar := by
      rw [natToDecimal, if_neg h0]
      show ((natDigitsRev n).reverse.map digitChar) = _
      rw [hds]
      simp
    simp only [rustParseUnsigned, hdata, stripLeadingPlus,
      if_neg (digitChar_ne_plus hd10)]
    have hmain := decimalToNatAux_digits n n 0 (le_refl n)
    rw [show (natDigitsRevAux n n).reverse.map digitChar = digitChar d :: ds.map digitChar by
      rw [show natDigitsRevAux n n = natDigitsRev n from rfl, hds]; simp] at hmain
    rw [hmain]
    simp [h]

/-- Round trip of a string-carried `u64`. -/
theorem decodeU64Str_natToDecimal {n : Nat} (h : n < 2 ^ 64) :
    decodeU64Str (.str (natToDecimal n)) = .ok n := by
  simp only [decodeU64Str, decodeString, bind, Except.bind, rustParseU64,
    rustParseUnsigned_natToDecimal h, pure, Except.pure]

/-- Round trip of a string-carried `u32`. -/
theorem decodeU32Str_natToDecimal {n : Nat} (h : n < 2 ^ 32) :
    decodeU32Str (.str (natToDecimal n)) = .ok n := by
  simp only [decodeU32Str, decodeString, bind, Except.bind, rustParseU32,
    rustParseUnsigned_natToDecimal h, pure, Except.pure]

/-- Round trip of a native-integer `u64`. -/
theorem decodeU64_num {n : Nat} (h : n < 2 ^ 64) : decodeU64 (encodeU64 n) = .ok n := by
  have h1 : (0 : Int) ≤ (n : Int) := by positivity
  have h2 : (n : Int) < 2 ^ 64 := by exact_mod_cast h
  simp [decodeU64, encodeU64, h1, h2]
  simpa using h

/-- Round trip of a native-integer `u32`. -/
theorem decodeU32_num {n : Nat} (h : n < 2 ^ 32) : decodeU32 (encodeU32 n) = .ok n := by
  have h1 : (0 : Int) ≤ (n : Int) := by positivity
  have h2 : (n : Int) < 2 ^ 32 := by exact_mod_cast h
  simp [decodeU32, encodeU32, h1, h2]
  simpa using h

/-- Round trip of the wire boolean codec. -/
theorem decode_encode_bool (b : Bool) :
    deserialize_string_to_bool (serialize_bool_to_string b) = .ok b := by
  cases b <;> rfl

/-- Round trip of the `FavoriteStatus` codec. -/
theorem decode_encode_favorite (x : FavoriteStatus) :
    decodeFavoriteStatus (encodeFavoriteStatus x) = .ok x := by
  cases x <;> rfl

/-- Round trip of the `Status` codec. -/
theorem decode_encode_status (x : Status) :
    decodeStatus (encodeStatus x) = .ok x := by
  cases x <;> rfl

/-- Round trip of the `HasImage` codec. -/
theorem decode_encode_hasImage (x : HasImage) :
    decodeHasImage (encodeHasImage x) = .ok x := by
  cases x <;> rfl

/-- Round trip of the `HasVideo` codec. -/
theorem decode_encode_hasVideo (x : HasVideo) :
    decodeHasVideo (encodeHasVideo x) = .ok x := by
  cases x <;> rfl

/-- A required field whose unique occurrence decodes successfully
makes `decodeField` succeed with that value. -/
theorem decodeField_occ {dec : Json → Except String α} {fields : List (String × Json)}
    {name : String} {v : Json} {a : α}
    (hocc : fieldOccurrences fields name = [v]) (hdec : dec v = .ok a) :
    decodeField fields name dec = .ok a := by
  simp [decodeField, getField, hocc, bind, Except.bind, hdec]

/-- An optional field holding an encoded `Option` decodes back to that
`Option`, provided the encoder never produces `null` and the present
value round-trips. -/
theorem decodeOptField_encodeOpt (dec : Json → Except String α) (enc : α → Json)
    (o : Option α)
    (hdec : ∀ x, o = some x → dec (enc x) = .ok x) (hnn : ∀ v, enc v ≠ .null)
    (fields : List (String × Json)) (name : String)
    (hocc : fieldOccurrences fields name = [encodeOpt enc o]) :
    decodeOptField fields name dec = .ok o := by
  cases o with
  | none =>
    simp [decodeOptField, getOptField, hocc, encodeOpt, pure, Except.pure, bind, Except.bind]
  | some v =>
    have hv := hdec v rfl
    have hm : decodeOptField fields name dec = (dec (enc v)).map some := by
      have he2 : encodeOpt enc (some v) = enc v := rfl
      rw [he2] at hocc
      cases he : enc v with
      | null => exact absurd he (hnn v)
      | bool b =>
        rw [he] at hocc
        simp [decodeOptField, getOptField, hocc, he, bind, Except.bind]
      | num n =>
        rw [he] at hocc
        simp [decodeOptField, getOptField, hocc, he, bind, Except.bind]
      | str s =>
        rw [he] at hocc
        simp [decodeOptField, getOptField, hocc, he, bind, Except.bind]
      | arr es =>
        rw [he] at hocc
        simp [decodeOptField, getOptField, hocc, he, bind, Except.bind]
      | obj fs2 =>
        rw [he] at hocc
        simp [decodeOptField, getOptField, hocc, he, bind, Except.bind]
    rw [hm, hv]
    rfl

/-- Inserting a key larger than every present key appends at the
end. -/
theorem mapInsert_append {k : String} {v : α} :
    ∀ {l : StrMap α}, (∀ p ∈ l, strLt p.1 k = true) → mapInsert k v l = l ++ [(k, v)] := by
  intro l
  induction l with
  | nil => intro _; rfl
  | cons q rest ih =>
    intro h
    obtain ⟨k', v'⟩ := q
    have hk : strLt k' k = true := h (k', v') (by simp)
    simp only [mapInsert]
    rw [if_neg (by simp [strLt_asymm hk]),
      if_neg (fun he => by rw [he] at hk; rw [strLt_irrefl] at hk; cases hk)]
    rw [ih (fun p hp => h p (List.mem_cons_of_mem _ hp))]
    simp

/-- Decoding the serialized fields of a sorted map rebuilds the map
behind the accumulator. -/
theorem decodeStrMapFields_encode {dec : Json → Except String α} {enc : α → Json} :
    ∀ (m acc : StrMap α),
    (∀ p ∈ m, dec (enc p.2) = .ok p.2) →
    SortedKeys m → (∀ p ∈ acc, ∀ q ∈ m, strLt p.1 q.1 = true) →
    decodeStrMapFields dec (m.map (fun p => (p.1, enc p.2))) acc = .ok (acc ++ m) := by
  intro m
  induction m with
  | nil => intro acc _ _ _; simp [decodeStrMapFields]
  | cons q m' ih =>
    intro acc hdec hs hlt
    obtain ⟨k0, v0⟩ := q
    have h0 : dec (enc v0) = .ok v0 := hdec (k0, v0) (by simp)
    simp only [List.map_cons, decodeStrMapFields, h0, except_bind_ok]
    rw [mapInsert_append (fun p hp => hlt p hp (k0, v0) (by simp))]
    rw [SortedKeys, List.pairwise_cons] at hs
    obtain ⟨hhead, htail⟩ := hs
    rw [ih (acc ++ [(k0, v0)]) (fun p hp => hdec p (List.mem_cons_of_mem _ hp)) htail ?_]
    · simp
    · intro p hp r hr
      rcases List.mem_append.1 hp with hp1 | hp1
      · exact hlt p hp1 r (List.mem_cons_of_mem _ hr)
      · simp at hp1
        subst hp1
        exact hhead r hr

/-- Round trip of a serialized `BTreeMap` whose elements round-trip. -/
theorem decodeStrMap_encodeStrMap {dec : Json → Except String α} {enc : α → Json}
    (m : StrMap α) (hdec : ∀ p ∈ m, dec (enc p.2) = .ok p.2) (hs : SortedKeys m) :
    decodeStrMap dec (encodeStrMap enc m) = .ok m := by
  have h : decodeStrMap dec (encodeStrMap enc m)
      = decodeStrMapFields dec (m.map (fun p => (p.1, enc p.2))) [] := rfl
  rw [h, decodeStrMapFields_encode m [] hdec hs (by simp)]
  simp

/-- Round trip of the `Tag` codec. -/
theorem decode_encode_tag (t : Tag) : decodeTag (encodeTag t) = .ok t := by
  simp [decodeTag, encodeTag, decodeField, getField, fieldOccurrences, decodeString,
    bind, Except.bind, pure, Except.pure]

/-- Round trip of the `Author` codec. -/
theorem decode_encode_author (a : Author) : decodeAuthor (encodeAuthor a) = .ok a := by
  simp [decodeAuthor, encodeAuthor, decodeField, getField, fieldOccurrences, decodeString,
    bind, Except.bind, pure, Except.pure]

/-- Round trip of the `DomainMetadata` codec. -/
theorem decode_encode_domainMetadata (d : DomainMetadata) :
    decodeDomainMetadata (encodeDomainMetadata d) = .ok d := by
  have h := decodeOptField_encodeOpt decodeString Json.str d.name
    (fun x _ => rfl) (fun v => by simp)
    [("name", encodeOpt Json.str d.name), ("logo", .str d.logo),
     ("greyscale_logo", .str d.greyscale_logo)] "name" rfl
  simp [decodeDomainMetadata, encodeDomainMetadata, h, decodeField, getField,
    fieldOccurrences, decodeString, bind, Except.bind, pure, Except.pure]

/-- Round trip of the `MainImage` codec under its representation
invariant. -/
theorem decode_encode_mainImage {i : MainImage} (h : WfMainImage i) :
    decodeMainImage (encodeMainImage i) = .ok i := by
  obtain ⟨hw, hh⟩ := h
  simp [decodeMainImage, encodeMainImage, decodeField, getField, fieldOccurrences,
    decodeString, decodeU32Str_natToDecimal hw, decodeU32Str_natToDecimal hh,
    bind, Except.bind, pure, Except.pure]

/-- Round trip of the `Image` codec under its representation
invariant. -/
theorem decode_encode_image {i : Image} (h : WfImage i) :
    decodeImage (encodeImage i) = .ok i := by
  obtain ⟨hw, hh⟩ := h
  simp [decodeImage, encodeImage, decodeField, getField, fieldOccurrences,
    decodeString, decodeU32Str_natToDecimal hw, decodeU32Str_natToDecimal hh,
    bind, Except.bind, pure, Except.pure]

/-- Round trip of the `Video` codec under its representation
invariant. -/
theorem decode_encode_video {v : Video} (h : WfVideo v) :
    decodeVideo (encodeVideo v) = .ok v := by
  obtain ⟨hw, hh, ht, hl⟩ := h
  have hlen := decodeOptField_encodeOpt decodeU32Str
    (fun n => .str (natToDecimal n)) v.length
    (fun x hx => decodeU32Str_natToDecimal (by rw [hx] at hl; exact hl))
    (fun x => by simp)
    [("item_id", .str v.item_id),
     ("video_id", .str v.video_id),
     ("src", .str v.src),
     ("width", .str (natToDecimal v.width)),
     ("height", .str (natToDecimal v.height)),
     ("type", .str (natToDecimal v.video_type)),
     ("vid", .str v.vid),
     ("length", encodeOpt (fun n => .str (natToDecimal n)) v.length)] "length" rfl
  simp [decodeVideo, encodeVideo, decodeField, getField, fieldOccurrences,
    decodeString, decodeU32Str_natToDecimal hw, decodeU32Str_natToDecimal hh,
    decodeU32Str_natToDecimal ht, hlen, bind, Except.bind, pure, Except.pure]

/-- Round trip of the full `Item` codec under the Rust representation
invariant. -/
theorem decodeItem_encodeItem {it : Item} (h : WfItem it) :
    decodeItem (encodeItem it) = .ok it := by
  obtain ⟨hc1, hc2, hc3, hc4, hc5, hc6, hc7, hc8, hc9, hc10, hc11, hc12, hc13⟩ := h
  have hf01 : decodeField (encodeItemFields it) "item_id" decodeString = .ok it.item_id :=
    decodeField_occ rfl rfl
  have hf02 : decodeField (encodeItemFields it) "resolved_id" decodeString = .ok it.resolved_id :=
    decodeField_occ rfl rfl
  have hf03 : decodeField (encodeItemFields it) "given_url" decodeString = .ok it.given_url :=
    decodeField_occ rfl rfl
  have hf04 : decodeField (encodeItemFields it) "resolved_url" decodeString = .ok it.resolved_url :=
    decodeField_occ rfl rfl
  have hf05 : decodeField (encodeItemFields it) "given_title" decodeString = .ok it.given_title :=
    decodeField_occ rfl rfl
  have hf06 : decodeField (encodeItemFields it) "resolved_title" decodeString
      = .ok it.resolved_title :=
    decodeField_occ rfl rfl
  have hf07 : decodeField (encodeItemFields it) "favorite" decodeFavoriteStatus
      = .ok it.favorite :=
    decodeField_occ rfl (decode_encode_favorite it.favorite)
  have hf08 : decodeField (encodeItemFields it) "status" decodeStatus = .ok it.status :=
    decodeField_occ rfl (decode_encode_status it.status)
  have hf09 : decodeField (encodeItemFields it) "excerpt" decodeString = .ok it.excerpt :=
    decodeField_occ rfl rfl
  have hf10 : decodeField (encodeItemFields it) "is_article" deserialize_string_to_bool
      = .ok it.is_article :=
    decodeField_occ rfl (decode_encode_bool it.is_article)
  have hf11 : decodeField (encodeItemFields it) "has_image" decodeHasImage = .ok it.has_image :=
    decodeField_occ rfl (decode_encode_hasImage it.has_image)
  have hf12 : decodeField (encodeItemFields it) "has_video" decodeHasVideo = .ok it.has_video :=
    decodeField_occ rfl (decode_encode_hasVideo it.has_video)
  have hf13 : decodeField (encodeItemFields it) "word_count" decodeU64Str = .ok it.word_count :=
    decodeField_occ rfl (decodeU64Str_natToDecimal hc1)
  have hf14 : decodeField (encodeItemFields it) "time_added" decodeU64Str = .ok it.time_added :=
    decodeField_occ rfl (decodeU64Str_natToDecimal hc2)
  have hf15 : decodeField (encodeItemFields it) "time_updated" decodeU64Str
      = .ok it.time_updated :=
    decodeField_occ rfl (decodeU64Str_natToDecimal hc3)
  have hf16 : decodeField (encodeItemFields it) "time_read" decodeU64Str = .ok it.time_read :=
    decodeField_occ rfl (decodeU64Str_natToDecimal hc4)
  have hf17 : decodeField (encodeItemFields it) "time_favorited" decodeU64Str
      = .ok it.time_favorited :=
    decodeField_occ rfl (decodeU64Str_natToDecimal hc5)
  have hf18 : decodeField (encodeItemFields it) "sort_id" decodeU32 = .ok it.sort_id :=
    decodeField_occ rfl (decodeU32_num hc6)
  have hf19 : decodeField (encodeItemFields it) "is_index" deserialize_string_to_bool
      = .ok it.is_index :=
    decodeField_occ rfl (decode_encode_bool it.is_index)
  have hf20 : decodeField (encodeItemFields it) "lang" decodeString = .ok it.lang :=
    decodeField_occ rfl rfl
  have hf21 : decodeOptField (encodeItemFields it) "top_image_url" decodeString
      = .ok it.top_image_url :=
    decodeOptField_encodeOpt decodeString Json.str it.top_image_url
      (fun x _ => rfl) (fun v => by simp)
      (encodeItemFields it) "top_image_url" rfl
  have hf22 : decodeOptField (encodeItemFields it) "domain_metadata" decodeDomainMetadata
      = .ok it.domain_metadata :=
    decodeOptField_encodeOpt decodeDomainMetadata encodeDomainMetadata it.domain_metadata
      (fun x _ => decode_encode_domainMetadata x)
      (fun v => by simp [encodeDomainMetadata])
      (encodeItemFields it) "domain_metadata" rfl
  have hf23 : decodeField (encodeItemFields it) "listen_duration_estimate" decodeU64
      = .ok it.listen_duration_estimate :=
    decodeField_occ rfl (decodeU64_num hc7)
  have hf24 : decodeOptField (encodeItemFields it) "time_to_read" decodeU64
      = .ok it.time_to_read :=
    decodeOptField_encodeOpt decodeU64 encodeU64 it.time_to_read
      (fun x hx => decodeU64_num (by rw [hx] at hc8; simpa [optHolds] using hc8))
      (fun v => by simp [encodeU64])
      (encodeItemFields it) "time_to_read" rfl
  have hf25 : decodeOptField (encodeItemFields it) "amp_url" decodeString = .ok it.amp_url :=
    decodeOptField_encodeOpt decodeString Json.str it.amp_url
      (fun x _ => rfl) (fun v => by simp)
      (encodeItemFields it) "amp_url" rfl
  have hf26 : decodeOptField (encodeItemFields it) "images" (decodeStrMap decodeImage)
      = .ok it.images :=
    decodeOptField_encodeOpt (decodeStrMap decodeImage) (encodeStrMap encodeImage) it.images
      (fun x hx => by
        rw [hx] at hc9
        simp only [optHolds] at hc9
        exact decodeStrMap_encodeStrMap x (fun p hp => decode_encode_image (hc9.2 p hp)) hc9.1)
      (fun v => by simp [encodeStrMap])
      (encodeItemFields it) "images" rfl
  have hf27 : decodeOptField (encodeItemFields it) "videos" (decodeStrMap decodeVideo)
      = .ok it.videos :=
    decodeOptField_encodeOpt (decodeStrMap decodeVideo) (encodeStrMap encodeVideo) it.videos
      (fun x hx => by
        rw [hx] at hc10
        simp only [optHolds] at hc10
        exact decodeStrMap_encodeStrMap x (fun p hp => decode_encode_video (hc10.2 p hp)) hc10.1)
      (fun v => by simp [encodeStrMap])
      (encodeItemFields it) "videos" rfl
  have hf28 : decodeOptField (encodeItemFields it) "authors" (decodeStrMap decodeAuthor)
      = .ok it.authors :=
    decodeOptField_encodeOpt (decodeStrMap decodeAuthor) (encodeStrMap encodeAuthor) it.authors
      (fun x hx => by
        rw [hx] at hc11
        simp only [optHolds] at hc11
        exact decodeStrMap_encodeStrMap x (fun p hp => decode_encode_author p.2) hc11)
      (fun v => by simp [encodeStrMap])
      (encodeItemFields it) "authors" rfl
  have hf29 : decodeOptField (encodeItemFields it) "tags" (decodeStrMap decodeTag)
      = .ok it.tags :=
    decodeOptField_encodeOpt (decodeStrMap decodeTag) (encodeStrMap encodeTag) it.tags
      (fun x hx => by
        rw [hx] at hc12
        simp only [optHolds] at hc12
        exact decodeStrMap_encodeStrMap x (fun p hp => decode_encode_tag p.2) hc12)
      (fun v => by simp [encodeStrMap])
      (encodeItemFields it) "tags" rfl
  have hf30 : decodeOptField (encodeItemFields it) "image" decodeMainImage = .ok it.image :=
    decodeOptField_encodeOpt decodeMainImage encodeMainImage it.image
      (fun x hx => decode_encode_mainImage (by rw [hx] at hc13; simpa [optHolds] using hc13))
      (fun v => by simp [encodeMainImage])
      (encodeItemFields it) "image" rfl
  show decodeItem (.obj (encodeItemFields it)) = .ok it
  simp only [decodeItem, hf01, hf02, hf03, hf04, hf05, hf06, hf07, hf08, hf09, hf10,
    hf11, hf12, hf13, hf14, hf15, hf16, hf17, hf18, hf19, hf20, hf21, hf22, hf23,
    hf24, hf25, hf26, hf27, hf28, hf29, hf30, except_bind_ok, pure, Except.pure]

/-- C8: decoding the wire encoding of every boolean yields the boolean
again, and encoding then decoding a (well-formed) `Item` — in
particular one whose `is_article` and `is_index` fields hold any
combination of true and false — yields the original item, hence the
original boolean values, via the "1"/"0" wire encoding. -/
theorem C8_roundtrip :
    (∀ b, deserialize_string_to_bool (serialize_bool_to_string b) = .ok b) ∧
    (∀ it : Item, WfItem it → decodeItem (encodeItem it) = .ok it) :=
  ⟨decode_encode_bool, fun _ h => decodeItem_encodeItem h⟩

/-- Witness for C8 at concrete items covering all four boolean
combinations. -/
theorem C8_witness :
    (WfItem (demoItem true true) ∧ decodeItem (encodeItem (demoItem true true))
      = .ok (demoItem true true)) ∧
    (WfItem (demoItem true false) ∧ decodeItem (encodeItem (demoItem true false))
      = .ok (demoItem true false)) ∧
    (WfItem (demoItem false true) ∧ decodeItem (encodeItem (demoItem false true))
      = .ok (demoItem false true)) ∧
    (WfItem (demoItem false false) ∧ decodeItem (encodeItem (demoItem false false))
      = .ok (demoItem false false)) :=
  ⟨⟨by unfold WfItem SortedKeys WfImage WfVideo WfMainImage; decide,
    C8_roundtrip.2 (demoItem true true)
      (by unfold WfItem SortedKeys WfImage WfVideo WfMainImage; decide)⟩,
   ⟨by unfold WfItem SortedKeys WfImage WfVideo WfMainImage; decide,
    C8_roundtrip.2 (demoItem true false)
      (by unfold WfItem SortedKeys WfImage WfVideo WfMainImage; decide)⟩,
   ⟨by unfold WfItem SortedKeys WfImage WfVideo WfMainImage; decide,
    C8_roundtrip.2 (demoItem false true)
      (by unfold WfItem SortedKeys WfImage WfVideo WfMainImage; decide)⟩,
   ⟨by unfold WfItem SortedKeys WfImage WfVideo WfMainImage; decide,
    C8_roundtrip.2 (demoItem false false)
      (by unfold WfItem SortedKeys WfImage WfVideo WfMainImage; decide)⟩⟩

/-- A successful element-wise zip of the two result arrays produces
one outcome per element, positionally. -/
theorem decodeOutcomes_spec :
    ∀ (results errs : List Json) (resp : ModifyResponse),
    decodeOutcomes results errs = .ok resp →
    resp.length = results.length ∧ results.length = errs.length ∧
    ∀ i (h1 : i < resp.length) (h2 : i < results.length) (h3 : i < errs.length),
      decodeOutcome results[i] errs[i] = .ok resp[i] := by
  intro results
  induction results with
  | nil =>
    intro errs resp h
    cases errs with
    | nil =>
      simp [decodeOutcomes] at h
      subst h
      refine ⟨rfl, rfl, ?_⟩
      intro i h1
      simp at h1
    | cons e es => simp [decodeOutcomes] at h
  | cons r rs ih =>
    intro errs resp h
    cases errs with
    | nil => simp [decodeOutcomes] at h
    | cons e es =>
      simp only [decodeOutcomes] at h
      obtain ⟨x, hx, h⟩ := except_bind_eq_ok h
      obtain ⟨xs, hxs, h⟩ := except_bind_eq_ok h
      simp only [pure, Except.pure] at h
      injection h with h
      subst h
      obtain ⟨hl1, hl2, hget⟩ := ih es xs hxs
      refine ⟨by simp [hl1], by simp [hl2], ?_⟩
      intro i h1 h2 h3
      cases i with
      | zero => simpa using hx
      | succ i =>
        simp only [List.getElem_cons_succ]
        exact hget i (by simpa using h1) (by simpa using h2) (by simpa using h3)

/-- Characterization of one zipped outcome: a present error wins and
is returned as `Err`; with no error, a decoded item gives `Ok (some
item)` and a bare boolean gives `Ok none`. -/
theorem decodeOutcome_spec (r e : Json) (x : Except ActionError (Option ModifiedItem))
    (h : decodeOutcome r e = .ok x) :
    (∀ err, decodeActionErrorEntry e = .ok (some err) → x = .error err) ∧
    (decodeActionErrorEntry e = .ok none →
      (∀ it, decodeModifiedItem r = .ok it → x = .ok (some it)) ∧
      (∀ b, r = .bool b → x = .ok none)) := by
  constructor
  · intro err herr
    rw [decodeOutcome, herr] at h
    simp only [except_bind_ok, pure, Except.pure] at h
    injection h with h
    exact h.symm
  · intro hnone
    rw [decodeOutcome, hnone] at h
    simp only [except_bind_ok] at h
    constructor
    · intro it hit
      have hare : decodeActionResultEntry r = .ok (some it) := by
        simp [decodeActionResultEntry, hit]
      rw [hare] at h
      simp only [Except.map] at h
      injection h with h
      exact h.symm
    · intro b hb
      subst hb
      have hare : decodeActionResultEntry (.bool b) = .ok none := by
        simp [decodeActionResultEntry, decodeModifiedItem]
      rw [hare] at h
      simp only [Except.map] at h
      injection h with h
      exact h.symm

/-- C4: for every submitted batch, a successful `modify` returns
exactly one outcome per action, in input order — `Err` of the i-th
action error when `action_errors[i]` is present (non-null), else
`Ok (some item)` when `action_results[i]` decodes as an item object,
else `Ok none` for bare boolean success. -/
theorem C4_modify_outcomes
    (actions : List Pocket.Action) (fs : List (String × Json))
    (results errs : List Json) (resp : ModifyResponse)
    (hr : getField fs "action_results" = .ok (.arr results))
    (he : getField fs "action_errors" = .ok (.arr errs))
    (hm : Client.modify actions (.obj fs) = .ok resp) :
    resp.length = actions.length ∧
    ∀ i (h1 : i < resp.length) (h2 : i < results.length) (h3 : i < errs.length),
      (∀ err, decodeActionErrorEntry errs[i] = .ok (some err) → resp[i] = .error err) ∧
      (decodeActionErrorEntry errs[i] = .ok none →
        (∀ it, decodeModifiedItem results[i] = .ok it → resp[i] = .ok (some it)) ∧
        (∀ b, results[i] = .bool b → resp[i] = .ok none)) := by
  rw [Client.modify] at hm
  cases hds : decodeSendResponse actions.length (.obj fs) with
  | error e0 => rw [hds] at hm; simp at hm
  | ok r0 =>
    rw [hds] at hm
    injection hm with hm
    subst hm
    simp only [decodeSendResponse, hr, he, except_bind_ok] at hds
    by_cases hlen : results.length = actions.length ∧ errs.length = actions.length
    · rw [if_pos hlen] at hds
      obtain ⟨hl1, hl2, hget⟩ := decodeOutcomes_spec results errs r0 hds
      refine ⟨by omega, ?_⟩
      intro i h1 h2 h3
      exact decodeOutcome_spec results[i] errs[i] r0[i] (hget i h1 h2 h3)
    · rw [if_neg hlen] at hds
      cases hds

/-- Witness for C4 at the two concrete batches of the spec: a bare
boolean success yields `Ok none`, and a present action error yields
`Err` of it. -/
theorem C4_witness :
    Client.modify [Pocket.Action.Add "savemysoul" 1700000000]
        (.obj [("action_results", .arr [.bool true]), ("action_errors", .arr [.null])])
      = .ok [.ok none] ∧
    ([Except.ok none] : ModifyResponse).length
      = [Pocket.Action.Add "savemysoul" 1700000000].length ∧
    Client.modify [Pocket.Action.Add "savemysoul" 1700000000]
        (.obj [("action_results", .arr [.bool false]),
               ("action_errors", .arr [.obj [("code", .num 422),
                  ("message", .str "Invalid/non-existent URL"),
                  ("error_type", .str "Unprocessable Entity")]])])
      = .ok [.error ⟨422, "Invalid/non-existent URL", "Unprocessable Entity"⟩] ∧
    ([Except.error ⟨422, "Invalid/non-existent URL", "Unprocessable Entity"⟩] : ModifyResponse)[0]
      = .error ⟨422, "Invalid/non-existent URL", "Unprocessable Entity"⟩ :=
  ⟨by decide,
   (C4_modify_outcomes [Pocket.Action.Add "savemysoul" 1700000000]
     [("action_results", .arr [.bool true]), ("action_errors", .arr [.null])]
     [.bool true] [.null] [.ok none]
     rfl rfl (by decide)).1,
   by decide,
   ((C4_modify_outcomes [Pocket.Action.Add "savemysoul" 1700000000]
       [("action_results", .arr [.bool false]),
        ("action_errors", .arr [.obj [("code", .num 422),
           ("message", .str "Invalid/non-existent URL"),
           ("error_type", .str "Unprocessable Entity")]])]
       [.bool false]
       [.obj [("code", .num 422), ("message", .str "Invalid/non-existent URL"),
              ("error_type", .str "Unprocessable Entity")]]
       [.error ⟨422, "Invalid/non-existent URL", "Unprocessable Entity"⟩]
       rfl rfl (by decide)).2 0 (by decide) (by decide) (by decide)).1
     ⟨422, "Invalid/non-existent URL", "Unprocessable Entity"⟩ (by decide)⟩
